import Mathlib

/-!
Verification development for the CBOR-to-JSON stream decoder of
`internal/cbor/decode_stream.go` (plus `internal/utils` error handling).

The decoder is shallowly embedded: byte streams are `List Nat` (each element a
byte value `< 256`), Go panics become `Except Fault`, and the caller-supplied
output sink (`io.Writer`) becomes an explicit `Sink` record threaded through the
decode functions.  Writes may fail, which is modelled by an oracle
`wf : Nat → Bool` telling whether the k-th `Write` call returns an error; the
code routes every write error through `utils.HandleErr`, which only logs it.

External library functions that the decoder merely calls (strconv.AppendFloat,
time formatting, net address formatting) are kept abstract as fields of an
`Ext` record that parametrises the decoder; everything the repository itself
computes is embedded concretely.
-/

namespace ZerologCbor

/-- Go panic values carried by decoder faults.  `malformed` stands for a panic
built with `fmt.Errorf` (a plain error, caught by `ManyObjCBOR2JSON`'s recover);
`runtimeErr` stands for a `runtime.Error` (re-panicked by the recover);
`fuelOut` is a modelling artifact of the explicit recursion fuel and is treated
like a propagating fault (it is unreachable when the fuel exceeds the cost of
the input). -/
inductive Fault where
  | malformed (msg : String)
  | runtimeErr (msg : String)
  | fuelOut
deriving Repr, DecidableEq

/-- The check `_, ok := r.(runtime.Error)` in `ManyObjCBOR2JSON`'s recover. -/
def Fault.isMalformed : Fault → Bool
  | .malformed _ => true
  | _ => false

/-! ### Constants

Modelled from the spec: the CBOR major-type and additional-info constants live
in a base file of `internal/cbor` that is not under `src/`; §3 of the spec
fixes the layout (major type = top 3 bits of the leading byte, additional
info = low 5 bits, immediate values 0–23, markers for 1/2/4/8-byte big-endian
extensions, an indefinite-length marker, and the simple/float selectors), and
the values below are the standard CBOR code points that layout dictates. -/

def majorTypeUnsignedInt : Nat := 0x00
def majorTypeNegativeInt : Nat := 0x20
def majorTypeByteString : Nat := 0x40
def majorTypeUtf8String : Nat := 0x60
def majorTypeArray : Nat := 0x80
def majorTypeMap : Nat := 0xa0
def majorTypeTags : Nat := 0xc0
def majorTypeSimpleAndFloat : Nat := 0xe0

def additionalTypeBoolFalse : Nat := 20
def additionalTypeBoolTrue : Nat := 21
def additionalTypeNull : Nat := 22
def additionalTypeFloat16 : Nat := 25
def additionalTypeFloat32 : Nat := 26
def additionalTypeFloat64 : Nat := 27
def additionalTypeIntUint8 : Nat := 24
def additionalTypeIntUint16 : Nat := 25
def additionalTypeIntUint32 : Nat := 26
def additionalTypeIntUint64 : Nat := 27
def additionalTypeBreak : Nat := 31
def additionalTypeInfiniteCount : Nat := 31

/-- Modelled from the spec: the six recognised tag codes of §4.4 (values from
the same missing base file; timestamp is the standard CBOR tag 1, the other
five are the zerolog extension range 260–263). -/
def additionalTypeTimestamp : Nat := 0x01
def additionalTypeTagNetworkAddr : Nat := 260
def additionalTypeTagNetworkPfx : Nat := 261
def additionalTypeEmbeddedJSON : Nat := 262
def additionalTypeTagHexString : Nat := 263

/-- Modelled from the spec: the three canonical 32-bit byte patterns for
NaN / +Infinity / -Infinity that `decodeFloat` compares the raw bytes against
(§4.2 "three canonical bit patterns"). -/
def float32Nan : List Nat := [0x7f, 0xc0, 0x00, 0x00]
def float32PosInfinity : List Nat := [0x7f, 0x80, 0x00, 0x00]
def float32NegInfinity : List Nat := [0xff, 0x80, 0x00, 0x00]

/-- Modelled from the spec: the three canonical 64-bit patterns. -/
def float64Nan : List Nat := [0x7f, 0xf8, 0, 0, 0, 0, 0, 0]
def float64PosInfinity : List Nat := [0x7f, 0xf0, 0, 0, 0, 0, 0, 0]
def float64NegInfinity : List Nat := [0xff, 0xf0, 0, 0, 0, 0, 0, 0]

/-- `const hexTable = "0123456789abcdef"` as byte values. -/
def hexTable : List Nat := [48, 49, 50, 51, 52, 53, 54, 55, 56, 57, 97, 98, 99, 100, 101, 102]

def isFloat32 : Nat := 4
def isFloat64 : Nat := 8

/-- `pb & maskOutAdditionalType` (mask `0xE0`): keeps bits 5–7, i.e. the
shifted major type.  For every natural `b` this arithmetic form agrees with the
bitwise AND. -/
def mjOf (b : Nat) : Nat := b / 32 % 8 * 32

/-- `pb & maskOutMajorType` (mask `0x1F`): the low 5 bits, the additional
info / minor value. -/
def mnOf (b : Nat) : Nat := b % 32

/-! ### Output sink

`io.Writer` destinations.  `out` is what the underlying writer accepted,
`attempts` records the payload of every `Write` call in order, `log` records
the messages `utils.HandleErr` logged for failed writes. -/

structure Sink where
  out : List Nat
  attempts : List (List Nat)
  log : List String
deriving Repr, DecidableEq

def Sink.empty : Sink := ⟨[], [], []⟩

/-- One `_, err := dst.Write(bs)` followed by `utils.HandleErr(err, msg)`.
The oracle `wf` says whether this (the `attempts.length`-th) write fails; on
failure `HandleErr` logs `msg` through the zerolog logger and the error is
otherwise ignored — decoding continues. -/
def writeTo (wf : Nat → Bool) (sink : Sink) (bs : List Nat) (msg : String) : Sink :=
  if wf sink.attempts.length then
    { out := sink.out, attempts := sink.attempts ++ [bs], log := sink.log ++ [msg] }
  else
    { out := sink.out ++ bs, attempts := sink.attempts ++ [bs], log := sink.log }

/-! ### Byte cursor -/

/-- `readByte`: one `src.ReadByte()`, panicking (malformed fault) at end of
input. -/
def readByte (s : List Nat) : Except Fault (Nat × List Nat) :=
  match s with
  | [] => .error (.malformed "tried to Read 1 Byte.. But hit end of file")
  | b :: rest => .ok (b, rest)

/-- `readNBytes`: reads `n` bytes one by one, panicking (malformed fault) if
the input ends first. -/
def readNBytes (n : Nat) (s : List Nat) : Except Fault (List Nat × List Nat) :=
  match n, s with
  | 0, s => .ok ([], s)
  | _ + 1, [] => .error (.malformed "tried to Read N Bytes.. But hit end of file")
  | n + 1, b :: rest =>
    match readNBytes n rest with
    | .error f => .error f
    | .ok (bs, s') => .ok (b :: bs, s')

/-- `moreBytesToRead`: a `ReadByte` followed by `UnreadByte` on success. -/
def moreBytesToRead (s : List Nat) : Bool := !s.isEmpty

/-! ### Integer decoding -/

/-- Reduction of a mathematical integer to Go `int64` two's-complement
wrap-around. -/
def wrap64 (n : Int) : Int := (n + 2 ^ 63) % 2 ^ 64 - 2 ^ 63

/-- The big-endian accumulation loop `val = val*256 + int64(pb[i])` of
`decodeIntAdditionalType`, with `int64` overflow wrapping at each step. -/
def accum64 (bs : List Nat) : Int := bs.foldl (fun v b => wrap64 (v * 256 + b)) 0

/-- `decodeIntAdditionalType`: immediate minor values 0–23 are the value
itself; minors 24–27 select a 1/2/4/8-byte big-endian extension; anything else
panics. -/
def decodeIntAdditionalType (minor : Nat) (s : List Nat) : Except Fault (Int × List Nat) :=
  if minor ≤ 23 then .ok ((minor : Int), s)
  else
    let bytesToRead : Nat :=
      if minor = additionalTypeIntUint8 then 1
      else if minor = additionalTypeIntUint16 then 2
      else if minor = additionalTypeIntUint32 then 4
      else if minor = additionalTypeIntUint64 then 8
      else 0
    if bytesToRead = 0 then
      .error (.malformed "invalid Additional Type in decodeInteger (expected <28)")
    else
      match readNBytes bytesToRead s with
      | .error f => .error f
      | .ok (pb, s') => .ok (accum64 pb, s')

/-- `decodeInteger`: major type 0 returns the value, major type 1 returns
`-1 - value`, any other major type panics. -/
def decodeInteger (s : List Nat) : Except Fault (Int × List Nat) :=
  match readByte s with
  | .error f => .error f
  | .ok (pb, s) =>
    let major := mjOf pb
    let minor := mnOf pb
    if major ≠ majorTypeUnsignedInt ∧ major ≠ majorTypeNegativeInt then
      .error (.malformed "major type in decodeInteger!! (expected 0 or 1)")
    else
      match decodeIntAdditionalType minor s with
      | .error f => .error f
      | .ok (val, s) => if major = 0 then .ok (val, s) else .ok (-1 - val, s)

/-! ### Float decoding -/

/-- The value a list of bytes denotes big-endian (the accumulation
`n = n*256 + pb[i]` into `uint32`/`uint64`; no overflow is possible for 4 or 8
bytes `< 256`). -/
def beVal (bs : List Nat) : Nat := bs.foldl (fun n b => n * 256 + b) 0

/-- The result of `math.Float32frombits`/`math.Float64frombits` widened to
`float64`, as far as the decoder observes it: the `math.IsNaN` / `math.IsInf`
classification and, for finite values, the original bit pattern (the
float32→float64 widening is exact and injective on finite values). -/
inductive FVal where
  | nan
  | posInf
  | negInf
  | fin32 (bits : Nat)
  | fin64 (bits : Nat)
deriving Repr, DecidableEq

/-- IEEE-754 single: exponent field (bits 23–30). -/
def exp32 (n : Nat) : Nat := n / 2 ^ 23 % 2 ^ 8

/-- IEEE-754 double: exponent field (bits 52–62). -/
def exp64 (n : Nat) : Nat := n / 2 ^ 52 % 2 ^ 11

/-- External library functions the decoder calls on decoded data but which are
not part of this repository: float-to-decimal formatting
(`strconv.AppendFloat(_, v, 'f', -1, 32/64)` applied to the finite value with
the given bit pattern), timestamp formatting (`time.Unix` plus
`Time.AppendFormat` with the Integer/Nano field formats in the configured time
zone), and `net` address rendering.  The decoder is parametric in them. -/
structure Ext where
  af32 : Nat → List Nat
  af64 : Nat → List Nat
  fmtTimeInt : Int → List Nat
  fmtTimeFloat : FVal → List Nat
  fmtMac : List Nat → List Nat
  fmtIP : List Nat → List Nat
  fmtPfx : List Nat → Int → Nat → List Nat

/-- A concrete instantiation of the external formatters, usable for evaluating
the decoder on inputs that never reach them. -/
def extStub : Ext :=
  ⟨fun _ => [], fun _ => [], fun _ => [], fun _ => [], fun _ => [], fun _ => [],
   fun _ _ _ => []⟩

/-- `decodeFloat`: requires major 7; float16 is unsupported; for 32/64-bit
widths the raw bytes are first compared with the canonical NaN/±Inf patterns,
otherwise they are accumulated big-endian and reinterpreted per IEEE-754 — a
non-canonical pattern with an all-ones exponent field is a NaN (`math.IsNaN`
holds of it downstream; the infinities have unique bit patterns, already
matched by the canonical comparison).  Also returns the byte width marker
(`isFloat32`/`isFloat64`). -/
def decodeFloat (s : List Nat) : Except Fault (FVal × Nat × List Nat) :=
  match readByte s with
  | .error f => .error f
  | .ok (pb, s) =>
    let major := mjOf pb
    let minor := mnOf pb
    if major ≠ majorTypeSimpleAndFloat then
      .error (.malformed "incorrect Major type in decodeFloat")
    else if minor = additionalTypeFloat16 then
      .error (.malformed "float16 is not suppported in decodeFloat")
    else if minor = additionalTypeFloat32 then
      match readNBytes 4 s with
      | .error f => .error f
      | .ok (pb, s) =>
        if pb = float32Nan then .ok (.nan, isFloat32, s)
        else if pb = float32PosInfinity then .ok (.posInf, isFloat32, s)
        else if pb = float32NegInfinity then .ok (.negInf, isFloat32, s)
        else
          let n := beVal pb
          if exp32 n = 0xff then .ok (.nan, isFloat32, s)
          else .ok (.fin32 n, isFloat32, s)
    else if minor = additionalTypeFloat64 then
      match readNBytes 8 s with
      | .error f => .error f
      | .ok (pb, s) =>
        if pb = float64Nan then .ok (.nan, isFloat64, s)
        else if pb = float64PosInfinity then .ok (.posInf, isFloat64, s)
        else if pb = float64NegInfinity then .ok (.negInf, isFloat64, s)
        else
          let n := beVal pb
          if exp64 n = 0x7ff then .ok (.nan, isFloat64, s)
          else .ok (.fin64 n, isFloat64, s)
    else .error (.malformed "invalid Additional Type in decodeFloat")

/-! ### UTF-8 string decoding -/

/-- Whether a byte is a UTF-8 continuation byte (`0x80`–`0xBF`). -/
def utf8Cont (b : Nat) : Bool := 0x80 ≤ b ∧ b ≤ 0xbf

/-- Modelled Go `unicode/utf8.DecodeRuneInString` as the decoder observes it:
`some k` when the head of the list begins a valid UTF-8 encoding of width `k`
(Go returns the decoded rune and `k`), `none` when it does not (Go returns
`RuneError` with width 1).  The acceptance ranges, including the exclusion of
overlong forms, surrogates (lead `0xED`) and values above `U+10FFFF` (lead
above `0xF4`), follow Go's `utf8.acceptRanges` table. -/
def utf8Width (s : List Nat) : Option Nat :=
  match s with
  | [] => none
  | b0 :: rest =>
    if b0 < 0x80 then some 1
    else if b0 < 0xc2 then none
    else if b0 ≤ 0xdf then
      if 1 ≤ rest.length ∧ utf8Cont (rest.getD 0 0) then some 2 else none
    else if b0 ≤ 0xef then
      if 2 ≤ rest.length ∧
          (if b0 = 0xe0 then 0xa0 else 0x80) ≤ rest.getD 0 0 ∧
          rest.getD 0 0 ≤ (if b0 = 0xed then 0x9f else 0xbf) ∧
          utf8Cont (rest.getD 1 0) then some 3 else none
    else if b0 ≤ 0xf4 then
      if 3 ≤ rest.length ∧
          (if b0 = 0xf0 then 0x90 else 0x80) ≤ rest.getD 0 0 ∧
          rest.getD 0 0 ≤ (if b0 = 0xf4 then 0x8f else 0xbf) ∧
          utf8Cont (rest.getD 1 0) ∧ utf8Cont (rest.getD 2 0) then some 4 else none
    else none

theorem utf8Width_pos {s : List Nat} {k : Nat} (h : utf8Width s = some k) : 1 ≤ k := by
  rcases s with _ | ⟨b0, rest⟩
  · simp [utf8Width] at h
  · simp only [utf8Width] at h
    split_ifs at h <;> simp_all <;> omega

theorem utf8Width_le {s : List Nat} {k : Nat} (h : utf8Width s = some k) :
    k ≤ s.length := by
  rcases s with _ | ⟨b0, rest⟩
  · simp [utf8Width] at h
  · simp only [utf8Width] at h
    split_ifs at h <;> simp_all <;> omega

/-- The six-byte replacement sequence `�`. -/
def replacementSeq : List Nat := [92, 117, 102, 102, 102, 100]

/-- The `switch b` of `decodeStringComplex` for a byte that needs encoding:
quote and backslash get two-character escapes, the five named control bytes get
theirs, everything else becomes `\u00XX` with lowercase hex digits. -/
def escByte (b : Nat) : List Nat :=
  if b = 34 ∨ b = 92 then [92, b]
  else if b = 8 then [92, 98]
  else if b = 12 then [92, 102]
  else if b = 10 then [92, 110]
  else if b = 13 then [92, 114]
  else if b = 9 then [92, 116]
  else [92, 117, 48, 48, hexTable.getD (b / 16) 0, hexTable.getD (b % 16) 0]

/-- The printable-ASCII fast-path test `b >= 0x20 && b <= 0x7e && b != '\\'
&& b != '"'`. -/
def simpleByte (b : Nat) : Bool := 0x20 ≤ b ∧ b ≤ 0x7e ∧ b ≠ 92 ∧ b ≠ 34

/-- The loop of `decodeStringComplex(dst, s, pos)`: `i` is the scan position,
`start` the beginning of the pending verbatim chunk (`s[start:i]` is appended
whenever an escape is emitted, and `s[start:]` at the end).  A byte `≥ 0x80`
is handed to the UTF-8 decoder: a valid rune is skipped (copied verbatim
later), an invalid byte emits `�` and advances by the reported width 1. -/
def dscLoop (s : List Nat) (dst : List Nat) (start i : Nat) : List Nat :=
  if hlt : i < s.length then
    let b := s.getD i 0
    if 0x80 ≤ b then
      match hw : utf8Width (s.drop i) with
      | none =>
        dscLoop s (dst ++ (s.drop start).take (i - start) ++ replacementSeq) (i + 1) (i + 1)
      | some size => dscLoop s dst start (i + size)
    else if simpleByte b then
      dscLoop s dst start (i + 1)
    else
      dscLoop s (dst ++ (s.drop start).take (i - start) ++ escByte b) (i + 1) (i + 1)
  else dst ++ s.drop start
termination_by s.length - i
decreasing_by
  · omega
  · have h1 := utf8Width_pos hw
    omega
  · omega
  · omega

/-- `decodeStringComplex` itself: starts scanning at `pos` with the verbatim
chunk anchored at 0. -/
def decodeStringComplex (dst : List Nat) (s : List Nat) (pos : Nat) : List Nat :=
  dscLoop s dst 0 pos

/-- `decodeString`: a byte string (major 2), length-prefixed raw bytes,
optionally wrapped in quotes and never escaped.  A length whose `int64` value
is negative makes `make([]byte, n)` panic with a `runtime.Error`. -/
def decodeString (noQuotes : Bool) (s : List Nat) : Except Fault (List Nat × List Nat) :=
  match readByte s with
  | .error f => .error f
  | .ok (pb, s) =>
    if mjOf pb ≠ majorTypeByteString then
      .error (.malformed "major type in decodeString")
    else
      match decodeIntAdditionalType (mnOf pb) s with
      | .error f => .error f
      | .ok (length, s) =>
        if length < 0 then .error (.runtimeErr "makeslice: len out of range")
        else
          match readNBytes length.toNat s with
          | .error f => .error f
          | .ok (pbs, s) =>
            if noQuotes then .ok (pbs, s) else .ok ([34] ++ pbs ++ [34], s)

/-- The payload scan of `decodeUTF8String`: index of the first byte that needs
JSON or UTF-8 encoding (`b < 0x20 || b > 0x7e || b == '\\' || b == '"'`). -/
def firstBad : List Nat → Option Nat
  | [] => none
  | b :: bs =>
    if b < 0x20 ∨ 0x7e < b ∨ b = 92 ∨ b = 34 then some 0
    else (firstBad bs).map (· + 1)

/-- `decodeUTF8String`: major 3, length-prefixed payload; if every payload
byte is simple printable ASCII it is copied verbatim between quotes, otherwise
control switches to `decodeStringComplex` from the first offending index (with
the quote already in `dst` and the closing quote appended after). -/
def decodeUTF8String (s : List Nat) : Except Fault (List Nat × List Nat) :=
  match readByte s with
  | .error f => .error f
  | .ok (pb, s) =>
    if mjOf pb ≠ majorTypeUtf8String then
      .error (.malformed "major type in decodeUTF8String")
    else
      match decodeIntAdditionalType (mnOf pb) s with
      | .error f => .error f
      | .ok (length, s) =>
        if length < 0 then .error (.runtimeErr "makeslice: len out of range")
        else
          match readNBytes length.toNat s with
          | .error f => .error f
          | .ok (pbs, s) =>
            match firstBad pbs with
            | some i => .ok (decodeStringComplex [34] pbs i ++ [34], s)
            | none => .ok ([34] ++ pbs ++ [34], s)

/-- `decodeSimpleFloat`: major 7; booleans and null map to their literals;
float minors unread the header byte and run `decodeFloat`, then NaN/±Inf
become the *quoted* strings `"NaN"` / `"+Inf"` / `"-Inf"`, and finite values
are formatted by `strconv.AppendFloat` at the precision selected by the byte
count `decodeFloat` returned. -/
def decodeSimpleFloat (E : Ext) (s : List Nat) : Except Fault (List Nat × List Nat) :=
  match readByte s with
  | .error f => .error f
  | .ok (pb, s) =>
    if mjOf pb ≠ majorTypeSimpleAndFloat then
      .error (.malformed "major type in decodeSimpleFloat")
    else
      let minor := mnOf pb
      if minor = additionalTypeBoolTrue then .ok ([116, 114, 117, 101], s)
      else if minor = additionalTypeBoolFalse then .ok ([102, 97, 108, 115, 101], s)
      else if minor = additionalTypeNull then .ok ([110, 117, 108, 108], s)
      else if minor = additionalTypeFloat16 ∨ minor = additionalTypeFloat32 ∨
          minor = additionalTypeFloat64 then
        match decodeFloat (pb :: s) with
        | .error f => .error f
        | .ok (v, bc, s) =>
          match v with
          | .nan => .ok ([34, 78, 97, 78, 34], s)
          | .posInf => .ok ([34, 43, 73, 110, 102, 34], s)
          | .negInf => .ok ([34, 45, 73, 110, 102, 34], s)
          | .fin32 bits =>
            if bc = isFloat32 then .ok (E.af32 bits, s)
            else if bc = isFloat64 then .ok (E.af64 bits, s)
            else .error (.malformed "invalid Float precision from decodeFloat")
          | .fin64 bits =>
            if bc = isFloat32 then .ok (E.af32 bits, s)
            else if bc = isFloat64 then .ok (E.af64 bits, s)
            else .error (.malformed "invalid Float precision from decodeFloat")
      else .error (.malformed "invalid Additional Type in decodeSimpleFloat")

/-- `decodeTimeStamp`: peeks at the major type (read + unread) and decodes the
tagged value as integer or float epoch seconds, rendered quoted by the external
time formatter. -/
def decodeTimeStamp (E : Ext) (s : List Nat) : Except Fault (List Nat × List Nat) :=
  match readByte s with
  | .error f => .error f
  | .ok (pb, _) =>
    let tsMajor := mjOf pb
    if tsMajor = majorTypeUnsignedInt ∨ tsMajor = majorTypeNegativeInt then
      match decodeInteger s with
      | .error f => .error f
      | .ok (n, s) => .ok ([34] ++ E.fmtTimeInt n ++ [34], s)
    else if tsMajor = majorTypeSimpleAndFloat then
      match decodeFloat s with
      | .error f => .error f
      | .ok (v, _, s) => .ok ([34] ++ E.fmtTimeFloat v ++ [34], s)
    else .error (.malformed "TS format is neigther int nor float")

/-- `decodeTagData`: major 6; tag 1 is a timestamp; a 2-byte tag value selects
embedded JSON (an unquoted byte string, required by a peeked major-2 check),
network address (length 6 → MAC, 4/16 → IP, otherwise a fault), network
prefix (a 1-element map of address bytes and an integer, mask width 32 for
4-byte addresses and 128 otherwise), or hex string (two lowercase hex digits
per byte, quoted); every other tag code is a fault. -/
def decodeTagData (E : Ext) (s : List Nat) : Except Fault (List Nat × List Nat) :=
  match readByte s with
  | .error f => .error f
  | .ok (pb, s) =>
    if mjOf pb ≠ majorTypeTags then
      .error (.malformed "major type in decodeTagData")
    else
      let minor := mnOf pb
      if minor = additionalTypeTimestamp then decodeTimeStamp E s
      else if minor = additionalTypeIntUint16 then
        match decodeIntAdditionalType minor s with
        | .error f => .error f
        | .ok (val, s) =>
          let v16 := (val % 65536).toNat
          if v16 = additionalTypeEmbeddedJSON then
            match readByte s with
            | .error f => .error f
            | .ok (pb2, _) =>
              if mjOf pb2 ≠ majorTypeByteString then
                .error (.malformed "unsupported embedded Type in decodeEmbeddedJSON")
              else decodeString true s
          else if v16 = additionalTypeTagNetworkAddr then
            match decodeString true s with
            | .error f => .error f
            | .ok (octets, s) =>
              if octets.length = 6 then .ok ([34] ++ E.fmtMac octets ++ [34], s)
              else if octets.length = 4 ∨ octets.length = 16 then
                .ok ([34] ++ E.fmtIP octets ++ [34], s)
              else .error (.malformed "unexpected Network Address length (expected 4,6,16)")
          else if v16 = additionalTypeTagNetworkPfx then
            match readByte s with
            | .error f => .error f
            | .ok (pb2, s) =>
              if pb2 ≠ majorTypeMap + 1 then
                .error (.malformed "IP Prefix is NOT of MAP of 1 elements as expected")
              else
                match decodeString true s with
                | .error f => .error f
                | .ok (octets, s) =>
                  match decodeInteger s with
                  | .error f => .error f
                  | .ok (val, s) =>
                    let w := if octets.length = 4 then 32 else 128
                    .ok ([34] ++ E.fmtPfx octets val w ++ [34], s)
          else if v16 = additionalTypeTagHexString then
            match decodeString true s with
            | .error f => .error f
            | .ok (octets, s) =>
              .ok ([34] ++
                (octets.map (fun v => [hexTable.getD (v / 16) 0, hexTable.getD (v % 16) 0])).flatten
                ++ [34], s)
          else .error (.malformed "unsupported Additional Tag Type in decodeTagData")
      else .error (.malformed "unsupported Additional Type in decodeTagData")

/-! ### Decimal rendering (`strconv.Itoa`) -/

/-- Decimal digits of a natural number, most significant first (the behaviour
of Go's `strconv` decimal formatting on the magnitude). -/
def natDigits (n : Nat) : List Nat :=
  if n < 10 then [48 + n] else natDigits (n / 10) ++ [48 + n % 10]
termination_by n
decreasing_by exact Nat.div_lt_self (by omega) (by omega)

/-- `strconv.Itoa` on an `int64` value: minus sign for negatives, then the
decimal digits of the magnitude with no leading zeros. -/
def itoa (n : Int) : List Nat :=
  if n < 0 then 45 :: natDigits (-n).toNat else natDigits n.toNat

/-! ### Dispatcher and composite decoders

The mutual recursion of `cbor2JsonOneObject`, `array2Json` and `map2Json` is
made total with an explicit fuel argument, decremented at every call into the
group; `.fuelOut` is unreachable whenever the fuel is at least the (finite)
cost of the input, and the public entry points seed more than enough.  The
`for` loops of `array2Json`/`map2Json` are the `arrayLoop`/`mapLoop`
functions, with the loop-constant flag `unspec` (`unSpecifiedCount`), the
bound `len2`/`l` (a Go `int`, hence `Int`), and the counter `i`. -/

/-- The break byte `majorTypeSimpleAndFloat | additionalTypeBreak` (0xFF). -/
def breakCode : Nat := majorTypeSimpleAndFloat + additionalTypeBreak

mutual

/-- `cbor2JsonOneObject`: peeks one byte, extracts the major type and routes
to the matching decoder, writing the decoded bytes of scalar values to `dst`.
(For a byte value the `if`-chain is exhaustive, so the final catch-all is
unreachable; it mirrors the Go `switch` falling through without consuming.) -/
def cbor2JsonOneObject (E : Ext) (wf : Nat → Bool) :
    Nat → List Nat → Sink → Sink × Except Fault (List Nat)
  | 0, _, sink => (sink, .error .fuelOut)
  | fuel + 1, s, sink =>
    match s with
    | [] => (sink, .error (.malformed "Peek hit end of file"))
    | b :: _ =>
      let major := mjOf b
      if major = majorTypeUnsignedInt ∨ major = majorTypeNegativeInt then
        match decodeInteger s with
        | .error f => (sink, .error f)
        | .ok (n, s') => (writeTo wf sink (itoa n) "Can't write", .ok s')
      else if major = majorTypeByteString then
        match decodeString false s with
        | .error f => (sink, .error f)
        | .ok (bs, s') => (writeTo wf sink bs "Can't write", .ok s')
      else if major = majorTypeUtf8String then
        match decodeUTF8String s with
        | .error f => (sink, .error f)
        | .ok (bs, s') => (writeTo wf sink bs "Can't write", .ok s')
      else if major = majorTypeArray then array2Json E wf fuel s sink
      else if major = majorTypeMap then map2Json E wf fuel s sink
      else if major = majorTypeTags then
        match decodeTagData E s with
        | .error f => (sink, .error f)
        | .ok (bs, s') => (writeTo wf sink bs "Can't write", .ok s')
      else if major = majorTypeSimpleAndFloat then
        match decodeSimpleFloat E s with
        | .error f => (sink, .error f)
        | .ok (bs, s') => (writeTo wf sink bs "Can't write", .ok s')
      else (sink, .ok s)

/-- `array2Json`: writes `[`, reads the header (major 4 required), decodes a
definite count or sets the indefinite flag, runs the element loop, and always
closes with `]`. -/
def array2Json (E : Ext) (wf : Nat → Bool) :
    Nat → List Nat → Sink → Sink × Except Fault (List Nat)
  | 0, _, sink => (sink, .error .fuelOut)
  | fuel + 1, s, sink =>
    let sink := writeTo wf sink [91] "Failed to write start of array"
    match readByte s with
    | .error f => (sink, .error f)
    | .ok (pb, s) =>
      if mjOf pb ≠ majorTypeArray then
        (sink, .error (.malformed "major type in array2Json"))
      else if mnOf pb = additionalTypeInfiniteCount then
        match arrayLoop E wf fuel true 0 0 s sink with
        | (sink, .error f) => (sink, .error f)
        | (sink, .ok s) =>
          (writeTo wf sink [93] "Failed to write a closing bracket", .ok s)
      else
        match decodeIntAdditionalType (mnOf pb) s with
        | .error f => (sink, .error f)
        | .ok (length, s) =>
          match arrayLoop E wf fuel false length 0 s sink with
          | (sink, .error f) => (sink, .error f)
          | (sink, .ok s) =>
            (writeTo wf sink [93] "Failed to write a closing bracket", .ok s)

/-- The element loop of `array2Json`: in indefinite mode it peeks for the
break byte at the top of each iteration and again after each element (writing
`,` only when more elements follow); in definite mode it writes `,` after
every element except the last. -/
def arrayLoop (E : Ext) (wf : Nat → Bool) :
    Nat → Bool → Int → Nat → List Nat → Sink → Sink × Except Fault (List Nat)
  | 0, _, _, _, _, sink => (sink, .error .fuelOut)
  | fuel + 1, unspec, len2, i, s, sink =>
    if unspec ∨ (i : Int) < len2 then
      if unspec then
        match s with
        | [] => (sink, .error (.malformed "Peek hit end of file"))
        | b :: rest =>
          if b = breakCode then (sink, .ok rest)
          else
            match cbor2JsonOneObject E wf fuel s sink with
            | (sink, .error f) => (sink, .error f)
            | (sink, .ok s) =>
              match s with
              | [] => (sink, .error (.malformed "Peek hit end of file"))
              | b :: rest =>
                if b = breakCode then (sink, .ok rest)
                else
                  arrayLoop E wf fuel unspec len2 (i + 1) s
                    (writeTo wf sink [44] "Failed to write a comma")
      else
        match cbor2JsonOneObject E wf fuel s sink with
        | (sink, .error f) => (sink, .error f)
        | (sink, .ok s) =>
          if (i : Int) + 1 < len2 then
            arrayLoop E wf fuel unspec len2 (i + 1) s
              (writeTo wf sink [44] "Failed to write a comma")
          else arrayLoop E wf fuel unspec len2 (i + 1) s sink
    else (sink, .ok s)

/-- `map2Json`: reads the header (major 5 required), decodes a definite item
count or sets the indefinite flag, writes `{`, runs the item loop, and always
closes with `}`. -/
def map2Json (E : Ext) (wf : Nat → Bool) :
    Nat → List Nat → Sink → Sink × Except Fault (List Nat)
  | 0, _, sink => (sink, .error .fuelOut)
  | fuel + 1, s, sink =>
    match readByte s with
    | .error f => (sink, .error f)
    | .ok (pb, s) =>
      if mjOf pb ≠ majorTypeMap then
        (sink, .error (.malformed "major type in map2Json"))
      else if mnOf pb = additionalTypeInfiniteCount then
        match mapLoop E wf fuel true 0 0 s (writeTo wf sink [123] "Can't write") with
        | (sink, .error f) => (sink, .error f)
        | (sink, .ok s) => (writeTo wf sink [125] "Can't write", .ok s)
      else
        match decodeIntAdditionalType (mnOf pb) s with
        | .error f => (sink, .error f)
        | .ok (length, s) =>
          match mapLoop E wf fuel false length 0 s (writeTo wf sink [123] "Can't write") with
          | (sink, .error f) => (sink, .error f)
          | (sink, .ok s) => (writeTo wf sink [125] "Can't write", .ok s)

/-- The item loop of `map2Json`: items at even positions are keys (always
followed by `:`); after an odd (value) item the loop writes `,` when more
items follow; the indefinite mode peeks for the break byte at the top of each
iteration and after value items. -/
def mapLoop (E : Ext) (wf : Nat → Bool) :
    Nat → Bool → Int → Nat → List Nat → Sink → Sink × Except Fault (List Nat)
  | 0, _, _, _, _, sink => (sink, .error .fuelOut)
  | fuel + 1, unspec, l, i, s, sink =>
    if unspec ∨ (i : Int) < l then
      if unspec then
        match s with
        | [] => (sink, .error (.malformed "Peek hit end of file"))
        | b :: rest =>
          if b = breakCode then (sink, .ok rest)
          else
            match cbor2JsonOneObject E wf fuel s sink with
            | (sink, .error f) => (sink, .error f)
            | (sink, .ok s) =>
              if i % 2 = 0 then
                mapLoop E wf fuel unspec l (i + 1) s (writeTo wf sink [58] "Can't write")
              else
                match s with
                | [] => (sink, .error (.malformed "Peek hit end of file"))
                | b :: rest =>
                  if b = breakCode then (sink, .ok rest)
                  else
                    mapLoop E wf fuel unspec l (i + 1) s
                      (writeTo wf sink [44] "Can't write")
      else
        match cbor2JsonOneObject E wf fuel s sink with
        | (sink, .error f) => (sink, .error f)
        | (sink, .ok s) =>
          if i % 2 = 0 then
            mapLoop E wf fuel unspec l (i + 1) s (writeTo wf sink [58] "Can't write")
          else if (i : Int) + 1 < l then
            mapLoop E wf fuel unspec l (i + 1) s (writeTo wf sink [44] "Can't write")
          else mapLoop E wf fuel unspec l (i + 1) s sink
    else (sink, .ok s)

end

/-! ### Stream driver and public conversion API -/

/-- The loop of `ManyObjCBOR2JSON` with the surrounding `recover`: while input
remains, decode one object and write a newline; a malformed-input panic is
converted into the single returned error (`.ok (some f)`), while a
`runtime.Error` (and the fuel artifact) re-panics (`.error f`). -/
def manyLoop (E : Ext) (wf : Nat → Bool) (fuel : Nat) (s : List Nat) (sink : Sink) :
    Sink × Except Fault (Option Fault) :=
  if moreBytesToRead s then
    match fuel with
    | 0 => (sink, .error .fuelOut)
    | fuel + 1 =>
      match cbor2JsonOneObject E wf fuel s sink with
      | (sink, .error f) =>
        if f.isMalformed then (sink, .ok (some f)) else (sink, .error f)
      | (sink, .ok s) => manyLoop E wf fuel s (writeTo wf sink [10] "Can't write")
  else (sink, .ok none)

/-- Fuel seed for the public entry points: strictly more than the decoders can
consume on the given input (each fuel-consuming call first consumes at least
one input byte). -/
def seedFuel (s : List Nat) : Nat := 2 * s.length + 8

/-- The write oracle of an in-memory `bytes.Buffer`, whose writes never
fail. -/
def neverFails : Nat → Bool := fun _ => false

/-- `ManyObjCBOR2JSON`: decodes all objects from `src` into `dst` (modelled by
the `wf` oracle), newline after each, recovering malformed-input panics into
one returned error. -/
def ManyObjCBOR2JSON (E : Ext) (wf : Nat → Bool) (input : List Nat) :
    Sink × Except Fault (Option Fault) :=
  manyLoop E wf (seedFuel input) input Sink.empty

/-- `binaryFmt`: input is binary iff it is nonempty and its first byte exceeds
0x7F. -/
def binaryFmt (p : List Nat) : Bool :=
  match p with
  | [] => false
  | b :: _ => 0x7f < b

/-- `DecodeIfBinaryToString`: binary input is decoded whole by
`ManyObjCBOR2JSON` into a fresh buffer whose content is returned — the error
`ManyObjCBOR2JSON` returned is only handed to `utils.HandleErr` (logged), so
the `.ok` result is produced even then; non-binary input is returned
unchanged.  A propagating panic is the `.error` case. -/
def DecodeIfBinaryToString (E : Ext) (input : List Nat) : Except Fault (List Nat) :=
  if binaryFmt input then
    match ManyObjCBOR2JSON E neverFails input with
    | (sink, .ok _) => .ok sink.out
    | (_, .error f) => .error f
  else .ok input

/-- `DecodeObjectToStr`: binary input has exactly one object decoded into a
fresh buffer whose content is returned; there is no recover here, so a decode
panic escapes to the caller (the `.error` case); non-binary input is returned
unchanged. -/
def DecodeObjectToStr (E : Ext) (input : List Nat) : Except Fault (List Nat) :=
  if binaryFmt input then
    match cbor2JsonOneObject E neverFails (seedFuel input) input Sink.empty with
    | (sink, .ok _) => .ok sink.out
    | (_, .error f) => .error f
  else .ok input

/-- `DecodeIfBinaryToBytes`: as `DecodeIfBinaryToString` but returning the
buffer's bytes. -/
def DecodeIfBinaryToBytes (E : Ext) (input : List Nat) : Except Fault (List Nat) :=
  if binaryFmt input then
    match ManyObjCBOR2JSON E neverFails input with
    | (sink, .ok _) => .ok sink.out
    | (_, .error f) => .error f
  else .ok input

/-! ## Claims C1 and C3: format detection and passthrough -/

/-- C1 — counterexample.  The claim says the 5-byte input
`0x64 't' 'e' 's' 't'` fed to `DecodeObjectToStr` returns the 6-character
text `"test"`.  In fact `binaryFmt` classifies the input as non-binary
(its first byte `0x64 = 100` does not exceed `0x7F`), so `DecodeObjectToStr`
returns the five input bytes unchanged (the text `dtest`), which is not the
claimed quoted string. -/
theorem C1_counterexample :
    DecodeObjectToStr extStub [0x64, 0x74, 0x65, 0x73, 0x74] =
      .ok [0x64, 0x74, 0x65, 0x73, 0x74] ∧
    ([0x64, 0x74, 0x65, 0x73, 0x74] : List Nat) ≠ [34, 0x74, 0x65, 0x73, 0x74, 34] := by
  exact ⟨rfl, by decide⟩

/-- C1 — amended.  Passing that 5-byte input to `DecodeObjectToStr` returns
the input unchanged (the first byte `0x64` is at most `0x7F`, so the
format-detection heuristic treats it as text and no decode is attempted);
the underlying one-object decoder `cbor2JsonOneObject` on the same bytes does
produce exactly the 6-character text `"test"`. -/
theorem C1_amended (E : Ext) :
    DecodeObjectToStr E [0x64, 0x74, 0x65, 0x73, 0x74] =
      .ok [0x64, 0x74, 0x65, 0x73, 0x74] ∧
    cbor2JsonOneObject E neverFails (seedFuel [0x64, 0x74, 0x65, 0x73, 0x74])
        [0x64, 0x74, 0x65, 0x73, 0x74] Sink.empty =
      (⟨[34, 0x74, 0x65, 0x73, 0x74, 34], [[34, 0x74, 0x65, 0x73, 0x74, 34]], []⟩,
        .ok []) := by
  exact ⟨rfl, rfl⟩

/-- C3.  Any input that is empty or whose first byte is at most `0x7F` is
returned byte-for-byte unchanged, with no error, by all three public entry
points. -/
theorem C3_passthrough (E : Ext) (input : List Nat)
    (h : input = [] ∨ ∃ b t, input = b :: t ∧ b ≤ 0x7f) :
    DecodeIfBinaryToString E input = .ok input ∧
    DecodeObjectToStr E input = .ok input ∧
    DecodeIfBinaryToBytes E input = .ok input := by
  have hb : binaryFmt input = false := by
    rcases h with rfl | ⟨b, t, rfl, hle⟩
    · rfl
    · simp [binaryFmt]; omega
  simp [DecodeIfBinaryToString, DecodeObjectToStr, DecodeIfBinaryToBytes, hb]

/-- C3 — witness: the ASCII text `{"a":1}` (leading byte `0x7B`). -/
theorem C3_passthrough_witness :
    DecodeIfBinaryToString extStub [0x7b, 0x22, 0x61, 0x22, 0x3a, 0x31, 0x7d] =
      .ok [0x7b, 0x22, 0x61, 0x22, 0x3a, 0x31, 0x7d] ∧
    DecodeObjectToStr extStub [0x7b, 0x22, 0x61, 0x22, 0x3a, 0x31, 0x7d] =
      .ok [0x7b, 0x22, 0x61, 0x22, 0x3a, 0x31, 0x7d] ∧
    DecodeIfBinaryToBytes extStub [0x7b, 0x22, 0x61, 0x22, 0x3a, 0x31, 0x7d] =
      .ok [0x7b, 0x22, 0x61, 0x22, 0x3a, 0x31, 0x7d] :=
  C3_passthrough extStub _ (Or.inr ⟨0x7b, _, rfl, by omega⟩)

/-! ## Claim C2: truncated multi-byte length/value fields -/

theorem readNBytes_short (n : Nat) (s : List Nat) (h : s.length < n) :
    readNBytes n s = .error (.malformed "tried to Read N Bytes.. But hit end of file") := by
  induction n generalizing s with
  | zero => omega
  | succ n ih =>
    cases s with
    | nil => rfl
    | cons b rest =>
      simp only [readNBytes]
      rw [ih rest (by simpa using h)]

/-- Number of extension bytes selected by a minor value 24–27. -/
def extLen (mn : Nat) : Nat :=
  if mn = 24 then 1 else if mn = 25 then 2 else if mn = 26 then 4
  else if mn = 27 then 8 else 0

theorem dIAT_short (mn : Nat) (rest : List Nat) (h1 : 24 ≤ mn) (h2 : mn ≤ 27)
    (hlen : rest.length < extLen mn) :
    decodeIntAdditionalType mn rest =
      .error (.malformed "tried to Read N Bytes.. But hit end of file") := by
  interval_cases mn <;>
    (first
      | rw [show extLen 24 = 1 from rfl] at hlen
      | rw [show extLen 25 = 2 from rfl] at hlen
      | rw [show extLen 26 = 4 from rfl] at hlen
      | rw [show extLen 27 = 8 from rfl] at hlen) <;>
    simp [decodeIntAdditionalType, additionalTypeIntUint8, additionalTypeIntUint16,
      additionalTypeIntUint32, additionalTypeIntUint64, readNBytes_short _ _ hlen]

/-- Any header byte with major type 4–7 (the only majors a binary-classified
input can start with) and a multi-byte extension minor 24–27, followed by too
few bytes to complete that extension field, makes the dispatcher fault with a
malformed-input (never runtime-class) error. -/
theorem oneObject_truncated (E : Ext) (wf : Nat → Bool) (fuel : Nat)
    (mj mn : Nat) (rest : List Nat) (sink : Sink)
    (hmj1 : 4 ≤ mj) (hmj2 : mj ≤ 7) (hmn1 : 24 ≤ mn) (hmn2 : mn ≤ 27)
    (hlen : rest.length < extLen mn) (hfuel : 2 ≤ fuel) :
    ∃ sink' m,
      cbor2JsonOneObject E wf fuel ((32 * mj + mn) :: rest) sink =
        (sink', .error (.malformed m)) := by
  obtain ⟨f, rfl⟩ : ∃ f, fuel = f + 2 := ⟨fuel - 2, by omega⟩
  have hd := dIAT_short mn rest hmn1 hmn2 hlen
  interval_cases mj <;> interval_cases mn <;>
    (first
      | rw [show extLen 24 = 1 from rfl] at hlen
      | rw [show extLen 25 = 2 from rfl] at hlen
      | rw [show extLen 26 = 4 from rfl] at hlen
      | rw [show extLen 27 = 8 from rfl] at hlen) <;>
    simp [cbor2JsonOneObject, array2Json, map2Json, decodeTagData, decodeSimpleFloat,
      decodeTimeStamp, decodeFloat, readByte, mjOf, mnOf,
      majorTypeUnsignedInt, majorTypeNegativeInt, majorTypeByteString, majorTypeUtf8String,
      majorTypeArray, majorTypeMap, majorTypeTags, majorTypeSimpleAndFloat,
      additionalTypeInfiniteCount, additionalTypeTimestamp, additionalTypeIntUint16,
      additionalTypeBoolTrue, additionalTypeBoolFalse, additionalTypeNull,
      additionalTypeFloat16, additionalTypeFloat32, additionalTypeFloat64,
      hd, readNBytes_short _ _ hlen]

/-- C2 — counterexample.  On the truncated binary input `[0x98]` (array
header, minor 24, its 1-byte length field missing) the claim fails twice over:
`DecodeObjectToStr` does not yield an error value — the malformed-input panic
escapes it uncaught (the `.error` result of the model, where the Go function's
return type `string` has no error slot at all); and `DecodeIfBinaryToString` /
`DecodeIfBinaryToBytes` yield no error either — they catch it internally, log
it, and return the partial output `"["` as a success. -/
theorem C2_counterexample :
    DecodeObjectToStr extStub [0x98] =
      .error (.malformed "tried to Read N Bytes.. But hit end of file") ∧
    DecodeIfBinaryToString extStub [0x98] = .ok [91] ∧
    DecodeIfBinaryToBytes extStub [0x98] = .ok [91] :=
  ⟨rfl, rfl, rfl⟩

/-- C2 — amended.  For every binary-classified input truncated in the middle
of a multi-byte length or value field (a first byte with major type 4–7 —
the only majors whose header byte exceeds `0x7F` — and extension minor 24–27,
followed by fewer bytes than the field needs), all three public entry points
terminate, and the fault raised is always Malformed-Input-class (never a
runtime error): `ManyObjCBOR2JSON` catches it and returns it as its single
error, so `DecodeIfBinaryToString` and `DecodeIfBinaryToBytes` return
successfully (the caught error is only logged, and any partial output stands),
while `DecodeObjectToStr`, which has no recovery point, lets the
malformed-input panic escape to its caller. -/
theorem C2_amended (E : Ext) (mj mn : Nat) (rest : List Nat)
    (hmj1 : 4 ≤ mj) (hmj2 : mj ≤ 7) (hmn1 : 24 ≤ mn) (hmn2 : mn ≤ 27)
    (hlen : rest.length < extLen mn) :
    (∃ m, DecodeObjectToStr E ((32 * mj + mn) :: rest) = .error (.malformed m)) ∧
    (∃ sink m, ManyObjCBOR2JSON E neverFails ((32 * mj + mn) :: rest) =
        (sink, .ok (some (.malformed m)))) ∧
    (∃ out, DecodeIfBinaryToString E ((32 * mj + mn) :: rest) = .ok out) ∧
    (∃ out, DecodeIfBinaryToBytes E ((32 * mj + mn) :: rest) = .ok out) := by
  have hbin : binaryFmt ((32 * mj + mn) :: rest) = true := by
    simp [binaryFmt]; omega
  have hseed : seedFuel ((32 * mj + mn) :: rest) = (2 * rest.length + 9) + 1 := by
    simp [seedFuel]; omega
  obtain ⟨sink', m, hone⟩ :=
    oneObject_truncated E neverFails (2 * rest.length + 9 + 1) mj mn rest Sink.empty
      hmj1 hmj2 hmn1 hmn2 hlen (by omega)
  obtain ⟨sink'', m', hone'⟩ :=
    oneObject_truncated E neverFails (2 * rest.length + 9) mj mn rest Sink.empty
      hmj1 hmj2 hmn1 hmn2 hlen (by omega)
  have hmany : ManyObjCBOR2JSON E neverFails ((32 * mj + mn) :: rest) =
      (sink'', .ok (some (.malformed m'))) := by
    rw [ManyObjCBOR2JSON, hseed, manyLoop]
    simp [moreBytesToRead, hone', Fault.isMalformed]
  refine ⟨⟨m, ?_⟩, ⟨sink'', m', hmany⟩, ⟨sink''.out, ?_⟩, ⟨sink''.out, ?_⟩⟩
  · rw [DecodeObjectToStr, hbin]
    simp [hseed, hone]
  · rw [DecodeIfBinaryToString, hbin]
    simp [hmany]
  · rw [DecodeIfBinaryToBytes, hbin]
    simp [hmany]

/-- C2 — witness: the concrete truncated inputs `[0x98]` (array, missing
1-byte length) exercising the amended theorem. -/
theorem C2_amended_witness :
    (4 ≤ 4 ∧ 4 ≤ 7 ∧ 24 ≤ 24 ∧ 24 ≤ 27 ∧ ([] : List Nat).length < extLen 24) ∧
    ((∃ m, DecodeObjectToStr extStub ((32 * 4 + 24) :: []) = .error (.malformed m)) ∧
      (∃ sink m, ManyObjCBOR2JSON extStub neverFails ((32 * 4 + 24) :: []) =
          (sink, .ok (some (.malformed m)))) ∧
      (∃ out, DecodeIfBinaryToString extStub ((32 * 4 + 24) :: []) = .ok out) ∧
      (∃ out, DecodeIfBinaryToBytes extStub ((32 * 4 + 24) :: []) = .ok out)) :=
  ⟨⟨le_refl 4, by omega, le_refl 24, by omega, by decide⟩,
    C2_amended extStub 4 24 [] (le_refl 4) (by omega) (le_refl 24) (by omega) (by decide)⟩

/-! ## Claim C5: 64-bit signed integers decode to their decimal literal -/

theorem readNBytes_exact (a rest : List Nat) :
    readNBytes a.length (a ++ rest) = .ok (a, rest) := by
  induction a with
  | nil => rfl
  | cons b bs ih => simp [readNBytes, ih]

/-- The wire bytes of `n` in `w`-byte big-endian form (the paired encoder's
extension field). -/
def beBytes : Nat → Nat → List Nat
  | 0, _ => []
  | w + 1, n => beBytes w (n / 256) ++ [n % 256]

theorem beBytes_length (w n : Nat) : (beBytes w n).length = w := by
  induction w generalizing n with
  | zero => rfl
  | succ w ih => simp [beBytes, ih]

theorem wrap64_of_range (k : Int) (h1 : -(2 ^ 63) ≤ k) (h2 : k < 2 ^ 63) :
    wrap64 k = k := by
  unfold wrap64
  rw [Int.emod_eq_of_lt (by omega) (by omega)]
  omega

theorem accum64_append (bs : List Nat) (x : Nat) :
    accum64 (bs ++ [x]) = wrap64 (accum64 bs * 256 + x) := by
  simp [accum64, List.foldl_append]

theorem accum64_beBytes (w n : Nat) (hw : n < 256 ^ w) (h63 : n < 2 ^ 63) :
    accum64 (beBytes w n) = (n : Int) := by
  induction w generalizing n with
  | zero =>
    have : n = 0 := by simpa using hw
    simp [this, accum64, beBytes]
  | succ w ih =>
    rw [beBytes, accum64_append, ih (n / 256) ?hfit ?h63']
    case hfit =>
      have : 256 ^ (w + 1) = 256 ^ w * 256 := by ring
      omega
    case h63' => omega
    have hcast : ((n / 256 : Nat) : Int) * 256 + ((n % 256 : Nat) : Int) = (n : Int) := by
      push_cast
      omega
    rw [hcast, wrap64_of_range _ (by omega) (by exact_mod_cast h63)]

/-- The minor value selecting a `w`-byte extension. -/
def minorForW : Nat → Nat
  | 1 => 24
  | 2 => 25
  | 4 => 26
  | 8 => 27
  | _ => 0

/-- A CBOR header with major type `mt` (already shifted) carrying the value
`n`: `w = 0` is the immediate form (requires `n < 24`), otherwise the
`w`-byte big-endian extension form. -/
def encHeadW (mt w n : Nat) : List Nat :=
  if w = 0 then [mt + n] else (mt + minorForW w) :: beBytes w n

/-- `n` fits the chosen width. -/
def fitW (w n : Nat) : Prop :=
  (w = 0 ∧ n < 24) ∨ (w = 1 ∧ n < 2 ^ 8) ∨ (w = 2 ∧ n < 2 ^ 16) ∨
    (w = 4 ∧ n < 2 ^ 32) ∨ w = 8

/-- The wire encoding of the signed 64-bit integer `n`: major type 0 with the
magnitude for `n ≥ 0`, major type 1 with `-1 - n` for `n < 0`. -/
def encInt (w : Nat) (n : Int) : List Nat :=
  if 0 ≤ n then encHeadW majorTypeUnsignedInt w n.toNat
  else encHeadW majorTypeNegativeInt w (-1 - n).toNat

theorem readNBytes_beBytes (w m : Nat) (rest : List Nat) :
    readNBytes w (beBytes w m ++ rest) = .ok (beBytes w m, rest) := by
  have h := readNBytes_exact (beBytes w m) rest
  rwa [beBytes_length] at h

/-- Decoding the `w`-byte extension field of a fitting magnitude recovers the
magnitude. -/
theorem dIAT_ext (w m : Nat) (rest : List Nat)
    (hw : w = 1 ∧ m < 2 ^ 8 ∨ w = 2 ∧ m < 2 ^ 16 ∨ w = 4 ∧ m < 2 ^ 32 ∨ w = 8)
    (h63 : m < 2 ^ 63) :
    decodeIntAdditionalType (minorForW w) (beBytes w m ++ rest) = .ok ((m : Int), rest) := by
  have hm256 : m < 256 ^ w := by
    rcases hw with ⟨rfl, hm⟩ | ⟨rfl, hm⟩ | ⟨rfl, hm⟩ | rfl <;> norm_num <;> omega
  rcases hw with ⟨rfl, _⟩ | ⟨rfl, _⟩ | ⟨rfl, _⟩ | rfl
  · show (match readNBytes 1 (beBytes 1 m ++ rest) with
        | Except.error f => Except.error f
        | Except.ok (pb, s') => Except.ok (accum64 pb, s')) = Except.ok ((m : Int), rest)
    rw [readNBytes_beBytes]
    simp [accum64_beBytes 1 m hm256 h63]
  · show (match readNBytes 2 (beBytes 2 m ++ rest) with
        | Except.error f => Except.error f
        | Except.ok (pb, s') => Except.ok (accum64 pb, s')) = Except.ok ((m : Int), rest)
    rw [readNBytes_beBytes]
    simp [accum64_beBytes 2 m hm256 h63]
  · show (match readNBytes 4 (beBytes 4 m ++ rest) with
        | Except.error f => Except.error f
        | Except.ok (pb, s') => Except.ok (accum64 pb, s')) = Except.ok ((m : Int), rest)
    rw [readNBytes_beBytes]
    simp [accum64_beBytes 4 m hm256 h63]
  · show (match readNBytes 8 (beBytes 8 m ++ rest) with
        | Except.error f => Except.error f
        | Except.ok (pb, s') => Except.ok (accum64 pb, s')) = Except.ok ((m : Int), rest)
    rw [readNBytes_beBytes]
    simp [accum64_beBytes 8 m hm256 h63]

/-- Decoding the full integer wire form of `n` (any width whose magnitude
fits) recovers `n`: major 0 gives the value as-is, major 1 gives `-1-value`. -/
theorem decodeInteger_enc (w : Nat) (n : Int) (rest : List Nat)
    (hfit : fitW w (if 0 ≤ n then n.toNat else (-1 - n).toNat))
    (hlo : -(2 ^ 63) ≤ n) (hhi : n < 2 ^ 63) :
    ∃ b l, encInt w n = b :: l ∧ b < 64 ∧
      decodeInteger (b :: (l ++ rest)) = .ok (n, rest) := by
  by_cases hn : 0 ≤ n
  · -- major type 0, magnitude n.toNat
    rw [if_pos hn] at hfit
    set m := n.toNat with hm
    have h63 : m < 2 ^ 63 := by omega
    have hval : (m : Int) = n := Int.toNat_of_nonneg hn
    rcases hfit with ⟨rfl, hlt⟩ | hext
    · refine ⟨m, [], by simp [encInt, hn, encHeadW, majorTypeUnsignedInt], by omega, ?_⟩
      have hmj : mjOf m = 0 := by unfold mjOf; omega
      have hmn : mnOf m = m := by unfold mnOf; omega
      rw [decodeInteger]
      simp only [readByte, hmj, hmn, majorTypeUnsignedInt, majorTypeNegativeInt]
      rw [decodeIntAdditionalType, if_pos (by omega : m ≤ 23)]
      simp [hval]
    · have hwpos : minorForW w = 24 ∨ minorForW w = 25 ∨ minorForW w = 26 ∨
          minorForW w = 27 := by
        rcases hext with ⟨rfl, _⟩ | ⟨rfl, _⟩ | ⟨rfl, _⟩ | rfl <;> simp [minorForW]
      refine ⟨minorForW w, beBytes w m, ?_, by omega, ?_⟩
      · have hw0 : w ≠ 0 := by rcases hext with ⟨rfl, _⟩ | ⟨rfl, _⟩ | ⟨rfl, _⟩ | rfl <;> omega
        simp [encInt, hn, encHeadW, hw0, majorTypeUnsignedInt]
      · have hmj : mjOf (minorForW w) = 0 := by unfold mjOf; omega
        have hmn : mnOf (minorForW w) = minorForW w := by unfold mnOf; omega
        rw [decodeInteger]
        simp only [readByte, hmj, hmn, majorTypeUnsignedInt, majorTypeNegativeInt]
        rw [dIAT_ext w m rest hext h63]
        simp [hval]
  · -- major type 1, magnitude (-1-n).toNat
    rw [if_neg hn] at hfit
    set m := (-1 - n).toNat with hm
    have h63 : m < 2 ^ 63 := by omega
    have hval : (m : Int) = -1 - n := Int.toNat_of_nonneg (by omega)
    have hres : -1 - (m : Int) = n := by omega
    rcases hfit with ⟨rfl, hlt⟩ | hext
    · refine ⟨32 + m, [], by simp [encInt, hn, encHeadW, majorTypeNegativeInt], by omega, ?_⟩
      have hmj : mjOf (32 + m) = 32 := by unfold mjOf; omega
      have hmn : mnOf (32 + m) = m := by unfold mnOf; omega
      rw [decodeInteger]
      simp only [readByte, hmj, hmn, majorTypeUnsignedInt, majorTypeNegativeInt]
      rw [decodeIntAdditionalType, if_pos (by omega : m ≤ 23)]
      simp [hres]
    · have hwrange : minorForW w = 24 ∨ minorForW w = 25 ∨ minorForW w = 26 ∨
          minorForW w = 27 := by
        rcases hext with ⟨rfl, _⟩ | ⟨rfl, _⟩ | ⟨rfl, _⟩ | rfl <;> simp [minorForW]
      refine ⟨32 + minorForW w, beBytes w m, ?_, by omega, ?_⟩
      · have hw0 : w ≠ 0 := by rcases hext with ⟨rfl, _⟩ | ⟨rfl, _⟩ | ⟨rfl, _⟩ | rfl <;> omega
        simp [encInt, hn, encHeadW, hw0, majorTypeNegativeInt]
      · have hmj : mjOf (32 + minorForW w) = 32 := by unfold mjOf; omega
        have hmn : mnOf (32 + minorForW w) = minorForW w := by unfold mnOf; omega
        rw [decodeInteger]
        simp only [readByte, hmj, hmn, majorTypeUnsignedInt, majorTypeNegativeInt]
        rw [dIAT_ext w m rest hext h63]
        simp [hres]

/-- Numeric value denoted by a list of decimal digit bytes. -/
def digitsVal (l : List Nat) : Nat := l.foldl (fun a d => a * 10 + (d - 48)) 0

theorem natDigits_small (n : Nat) (h : n < 10) : natDigits n = [48 + n] := by
  rw [natDigits, if_pos h]

theorem natDigits_big (n : Nat) (h : 10 ≤ n) :
    natDigits n = natDigits (n / 10) ++ [48 + n % 10] := by
  rw [natDigits, if_neg (by omega)]

theorem natDigits_ne_nil (n : Nat) : natDigits n ≠ [] := by
  rw [natDigits]; split <;> simp

theorem natDigits_mem (n : Nat) : ∀ d ∈ natDigits n, 48 ≤ d ∧ d ≤ 57 := by
  induction n using Nat.strong_induction_on with
  | _ n ih =>
    rw [natDigits]
    split
    · intro d hd
      simp at hd
      omega
    · intro d hd
      rw [List.mem_append] at hd
      rcases hd with h | h
      · exact ih (n / 10) (by omega) d h
      · simp at h
        omega

theorem natDigits_head (n : Nat) (hn : 0 < n) : (natDigits n).head? ≠ some 48 := by
  induction n using Nat.strong_induction_on with
  | _ n ih =>
    rw [natDigits]
    split
    · simp
      omega
    · rename_i hge
      obtain ⟨a, t, he⟩ := List.exists_cons_of_ne_nil (natDigits_ne_nil (n / 10))
      have hh := ih (n / 10) (by omega) (by omega)
      rw [he] at hh ⊢
      simpa using hh

theorem digitsVal_natDigits (n : Nat) : digitsVal (natDigits n) = n := by
  induction n using Nat.strong_induction_on with
  | _ n ih =>
    rw [natDigits]
    split
    · simp [digitsVal]
    · rw [show digitsVal (natDigits (n / 10) ++ [48 + n % 10]) =
          digitsVal (natDigits (n / 10)) * 10 + (48 + n % 10 - 48) by
            simp [digitsVal, List.foldl_append]]
      rw [ih (n / 10) (by omega)]
      omega

/-- C5.  For every signed 64-bit integer `n` and every admissible wire width
(immediate minor for magnitudes below 24, or a fitting 1/2/4/8-byte
big-endian extension), the dispatcher decodes the encoding of `n` and writes
exactly `itoa n`, the decimal literal of `n`: for `n = 0` the single digit
`0`; for `n > 0` digit bytes with no leading zero whose value is `n`; for
`n < 0` a minus sign followed by the digits of `-n` with no leading zero. -/
theorem C5_integer_literal (E : Ext) (wf : Nat → Bool) (fuel w : Nat) (n : Int)
    (rest : List Nat) (sink : Sink)
    (hfit : fitW w (if 0 ≤ n then n.toNat else (-1 - n).toNat))
    (hlo : -(2 ^ 63) ≤ n) (hhi : n < 2 ^ 63) (hfuel : 1 ≤ fuel) :
    cbor2JsonOneObject E wf fuel (encInt w n ++ rest) sink =
      (writeTo wf sink (itoa n) "Can't write", .ok rest) ∧
    (n = 0 → itoa n = [48]) ∧
    (0 < n → (itoa n).head? ≠ some 48 ∧ digitsVal (itoa n) = n.toNat ∧
      ∀ d ∈ itoa n, 48 ≤ d ∧ d ≤ 57) ∧
    (n < 0 → itoa n = 45 :: natDigits (-n).toNat ∧
      (natDigits (-n).toNat).head? ≠ some 48 ∧
      digitsVal (natDigits (-n).toNat) = (-n).toNat ∧
      ∀ d ∈ natDigits (-n).toNat, 48 ≤ d ∧ d ≤ 57) := by
  obtain ⟨f, rfl⟩ : ∃ f, fuel = f + 1 := ⟨fuel - 1, by omega⟩
  obtain ⟨b, l, henc, hb64, hdec⟩ := decodeInteger_enc w n rest hfit hlo hhi
  refine ⟨?_, ?_, ?_, ?_⟩
  · rw [henc, List.cons_append]
    have hmaj : mjOf b = majorTypeUnsignedInt ∨ mjOf b = majorTypeNegativeInt := by
      unfold mjOf majorTypeUnsignedInt majorTypeNegativeInt
      omega
    simp only [cbor2JsonOneObject]
    rw [if_pos hmaj, hdec]
  · intro h0
    subst h0
    rw [itoa, if_neg (by norm_num), show (0 : Int).toNat = 0 from rfl,
      natDigits_small 0 (by norm_num)]
  · intro hpos
    have he : itoa n = natDigits n.toNat := by rw [itoa, if_neg (by omega)]
    rw [he]
    exact ⟨natDigits_head _ (by omega), digitsVal_natDigits _, natDigits_mem _⟩
  · intro hneg
    have he : itoa n = 45 :: natDigits (-n).toNat := by rw [itoa, if_pos hneg]
    exact ⟨he, natDigits_head _ (by omega), digitsVal_natDigits _, natDigits_mem _⟩

/-- C5 — witness: `n = -500` encoded with a 2-byte extension
(`0x39 0x01 0xF3`) decodes to the literal `-500`. -/
theorem C5_integer_literal_witness :
    (-(2 ^ 63) ≤ (-500 : Int) ∧ (-500 : Int) < 2 ^ 63 ∧
      fitW 2 (if 0 ≤ (-500 : Int) then (-500 : Int).toNat else (-1 - (-500 : Int)).toNat)) ∧
    cbor2JsonOneObject extStub neverFails 9 (encInt 2 (-500) ++ []) Sink.empty =
      (writeTo neverFails Sink.empty (itoa (-500)) "Can't write", .ok []) ∧
    itoa (-500) = [45, 53, 48, 48] :=
  ⟨⟨by norm_num, by norm_num, Or.inr (Or.inr (Or.inl ⟨rfl, by norm_num⟩))⟩,
    (C5_integer_literal extStub neverFails 9 2 (-500) [] Sink.empty
      (Or.inr (Or.inr (Or.inl ⟨rfl, by norm_num⟩))) (by norm_num) (by norm_num)
      (by norm_num)).1,
    by
      rw [itoa, if_pos (by norm_num), show (-(-500 : Int)).toNat = 500 from rfl,
        natDigits_big _ (by norm_num)]
      norm_num
      rw [natDigits_big _ (by norm_num)]
      norm_num
      rw [natDigits_small _ (by norm_num)]
      norm_num⟩

/-! ## Claim C8: NaN/±Inf render quoted, finite values at selected precision -/

theorem beVal_append (bs : List Nat) (x : Nat) :
    beVal (bs ++ [x]) = beVal bs * 256 + x := by
  simp [beVal, List.foldl_append]

theorem beVal_beBytes (w n : Nat) (h : n < 256 ^ w) : beVal (beBytes w n) = n := by
  induction w generalizing n with
  | zero =>
    have : n = 0 := by simpa using h
    simp [this, beVal, beBytes]
  | succ w ih =>
    rw [beBytes, beVal_append, ih (n / 256) (by
      have : 256 ^ (w + 1) = 256 ^ w * 256 := by ring
      omega)]
    omega

theorem beBytes_eq_lit (w n m : Nat) (hn : n < 256 ^ w) (hlit : beVal (beBytes w m) = m)
    (_hm : m < 256 ^ w) : (beBytes w n = beBytes w m) = (n = m) := by
  apply propext
  constructor
  · intro h
    have h2 := congrArg beVal h
    rwa [beVal_beBytes w n hn, hlit] at h2
  · intro h
    rw [h]

/-- Evaluation of `decodeSimpleFloat` on a 32-bit float encoding with bit
pattern `n`: the canonical-pattern comparisons followed by the IEEE
classification, exactly as the decoder chains them. -/
theorem decodeSimpleFloat32_eval (E : Ext) (n : Nat) (rest : List Nat) (hn : n < 2 ^ 32) :
    decodeSimpleFloat E (0xfa :: (beBytes 4 n ++ rest)) =
      (if n = 0x7fc00000 then .ok ([34, 78, 97, 78, 34], rest)
       else if n = 0x7f800000 then .ok ([34, 43, 73, 110, 102, 34], rest)
       else if n = 0xff800000 then .ok ([34, 45, 73, 110, 102, 34], rest)
       else if exp32 n = 0xff then .ok ([34, 78, 97, 78, 34], rest)
       else .ok (E.af32 n, rest)) := by
  have hn' : n < 256 ^ 4 := by norm_num at hn ⊢; omega
  have e1 : (beBytes 4 n = float32Nan) = (n = 0x7fc00000) :=
    beBytes_eq_lit 4 n 0x7fc00000 hn' (by rfl) (by norm_num)
  have e2 : (beBytes 4 n = float32PosInfinity) = (n = 0x7f800000) :=
    beBytes_eq_lit 4 n 0x7f800000 hn' (by rfl) (by norm_num)
  have e3 : (beBytes 4 n = float32NegInfinity) = (n = 0xff800000) :=
    beBytes_eq_lit 4 n 0xff800000 hn' (by rfl) (by norm_num)
  have hval : beVal (beBytes 4 n) = n := beVal_beBytes 4 n hn'
  simp only [decodeSimpleFloat, readByte, decodeFloat, mjOf, mnOf,
    majorTypeSimpleAndFloat, additionalTypeBoolTrue, additionalTypeBoolFalse,
    additionalTypeNull, additionalTypeFloat16, additionalTypeFloat32,
    additionalTypeFloat64, isFloat32, isFloat64, readNBytes_beBytes, e1, e2, e3, hval]
  norm_num
  split_ifs <;> rfl

/-- Evaluation of `decodeSimpleFloat` on a 64-bit float encoding with bit
pattern `n`. -/
theorem decodeSimpleFloat64_eval (E : Ext) (n : Nat) (rest : List Nat) (hn : n < 2 ^ 64) :
    decodeSimpleFloat E (0xfb :: (beBytes 8 n ++ rest)) =
      (if n = 0x7ff8000000000000 then .ok ([34, 78, 97, 78, 34], rest)
       else if n = 0x7ff0000000000000 then .ok ([34, 43, 73, 110, 102, 34], rest)
       else if n = 0xfff0000000000000 then .ok ([34, 45, 73, 110, 102, 34], rest)
       else if exp64 n = 0x7ff then .ok ([34, 78, 97, 78, 34], rest)
       else .ok (E.af64 n, rest)) := by
  have hn' : n < 256 ^ 8 := by norm_num at hn ⊢; omega
  have e1 : (beBytes 8 n = float64Nan) = (n = 0x7ff8000000000000) :=
    beBytes_eq_lit 8 n 0x7ff8000000000000 hn' (by rfl) (by norm_num)
  have e2 : (beBytes 8 n = float64PosInfinity) = (n = 0x7ff0000000000000) :=
    beBytes_eq_lit 8 n 0x7ff0000000000000 hn' (by rfl) (by norm_num)
  have e3 : (beBytes 8 n = float64NegInfinity) = (n = 0xfff0000000000000) :=
    beBytes_eq_lit 8 n 0xfff0000000000000 hn' (by rfl) (by norm_num)
  have hval : beVal (beBytes 8 n) = n := beVal_beBytes 8 n hn'
  simp only [decodeSimpleFloat, readByte, decodeFloat, mjOf, mnOf,
    majorTypeSimpleAndFloat, additionalTypeBoolTrue, additionalTypeBoolFalse,
    additionalTypeNull, additionalTypeFloat16, additionalTypeFloat32,
    additionalTypeFloat64, isFloat32, isFloat64, readNBytes_beBytes, e1, e2, e3, hval]
  norm_num
  split_ifs <;> rfl

/-- C8.  For every 32- or 64-bit float encoding: a byte pattern denoting NaN
(all-ones exponent field, nonzero mantissa) emits the quoted string `"NaN"`,
the +Infinity pattern emits `"+Inf"`, the -Infinity pattern emits `"-Inf"` —
each with surrounding double quotes — and every finite pattern (exponent field
not all ones) is handed to the decimal formatter of the original precision
(`strconv.AppendFloat` at bit size 32 resp. 64), as selected by the byte
width returned from `decodeFloat`; this holds for every formatter pair. -/
theorem C8_float_specials (E : Ext) (rest : List Nat) :
    (∀ n : Nat, n < 2 ^ 32 → exp32 n = 0xff → n % 2 ^ 23 ≠ 0 →
      decodeSimpleFloat E (0xfa :: (beBytes 4 n ++ rest)) =
        .ok ([34, 78, 97, 78, 34], rest)) ∧
    decodeSimpleFloat E (0xfa :: (beBytes 4 0x7f800000 ++ rest)) =
      .ok ([34, 43, 73, 110, 102, 34], rest) ∧
    decodeSimpleFloat E (0xfa :: (beBytes 4 0xff800000 ++ rest)) =
      .ok ([34, 45, 73, 110, 102, 34], rest) ∧
    (∀ n : Nat, n < 2 ^ 32 → exp32 n ≠ 0xff →
      decodeSimpleFloat E (0xfa :: (beBytes 4 n ++ rest)) = .ok (E.af32 n, rest)) ∧
    (∀ n : Nat, n < 2 ^ 64 → exp64 n = 0x7ff → n % 2 ^ 52 ≠ 0 →
      decodeSimpleFloat E (0xfb :: (beBytes 8 n ++ rest)) =
        .ok ([34, 78, 97, 78, 34], rest)) ∧
    decodeSimpleFloat E (0xfb :: (beBytes 8 0x7ff0000000000000 ++ rest)) =
      .ok ([34, 43, 73, 110, 102, 34], rest) ∧
    decodeSimpleFloat E (0xfb :: (beBytes 8 0xfff0000000000000 ++ rest)) =
      .ok ([34, 45, 73, 110, 102, 34], rest) ∧
    (∀ n : Nat, n < 2 ^ 64 → exp64 n ≠ 0x7ff →
      decodeSimpleFloat E (0xfb :: (beBytes 8 n ++ rest)) = .ok (E.af64 n, rest)) := by
  refine ⟨?_, ?_, ?_, ?_, ?_, ?_, ?_, ?_⟩
  · intro n hn hexp hmant
    rw [decodeSimpleFloat32_eval E n rest hn]
    by_cases h1 : n = 0x7fc00000
    · rw [if_pos h1]
    · rw [if_neg h1, if_neg (by rintro rfl; norm_num [exp32] at hmant ⊢),
        if_neg (by rintro rfl; norm_num [exp32] at hmant ⊢), if_pos hexp]
  · rw [decodeSimpleFloat32_eval E _ rest (by norm_num)]
    norm_num
  · rw [decodeSimpleFloat32_eval E _ rest (by norm_num)]
    norm_num
  · intro n hn hexp
    rw [decodeSimpleFloat32_eval E n rest hn,
      if_neg (by rintro rfl; norm_num [exp32] at hexp),
      if_neg (by rintro rfl; norm_num [exp32] at hexp),
      if_neg (by rintro rfl; norm_num [exp32] at hexp), if_neg hexp]
  · intro n hn hexp hmant
    rw [decodeSimpleFloat64_eval E n rest hn]
    by_cases h1 : n = 0x7ff8000000000000
    · rw [if_pos h1]
    · rw [if_neg h1, if_neg (by rintro rfl; norm_num [exp64] at hmant ⊢),
        if_neg (by rintro rfl; norm_num [exp64] at hmant ⊢), if_pos hexp]
  · rw [decodeSimpleFloat64_eval E _ rest (by norm_num)]
    norm_num
  · rw [decodeSimpleFloat64_eval E _ rest (by norm_num)]
    norm_num
  · intro n hn hexp
    rw [decodeSimpleFloat64_eval E n rest hn,
      if_neg (by rintro rfl; norm_num [exp64] at hexp),
      if_neg (by rintro rfl; norm_num [exp64] at hexp),
      if_neg (by rintro rfl; norm_num [exp64] at hexp), if_neg hexp]

/-- C8 — witness: the non-canonical 32-bit NaN pattern `0x7FC00001` renders as
quoted `"NaN"`, and the finite pattern of `1.0f` (`0x3F800000`) goes to the
32-bit formatter. -/
theorem C8_float_specials_witness :
    ((0x7fc00001 : Nat) < 2 ^ 32 ∧ exp32 0x7fc00001 = 0xff ∧
      (0x7fc00001 : Nat) % 2 ^ 23 ≠ 0 ∧ (0x3f800000 : Nat) < 2 ^ 32 ∧
      exp32 0x3f800000 ≠ 0xff) ∧
    decodeSimpleFloat extStub (0xfa :: (beBytes 4 0x7fc00001 ++ [])) =
      .ok ([34, 78, 97, 78, 34], []) ∧
    decodeSimpleFloat extStub (0xfa :: (beBytes 4 0x3f800000 ++ [])) =
      .ok (extStub.af32 0x3f800000, []) :=
  ⟨⟨by norm_num, by norm_num [exp32], by norm_num, by norm_num, by norm_num [exp32]⟩,
    (C8_float_specials extStub []).1 0x7fc00001 (by norm_num) (by norm_num [exp32])
      (by norm_num),
    (C8_float_specials extStub []).2.2.2.1 0x3f800000 (by norm_num)
      (by norm_num [exp32])⟩

/-! ## Claim C7: UTF-8 string escaping -/

/-- Header decomposition: an `encHeadW` header starts with a byte of major
`mt` whose minor (plus any extension bytes) decodes to the encoded value. -/
theorem encHeadW_decode (mt w m : Nat) (rest : List Nat)
    (hmt32 : mt % 32 = 0) (hmtlt : mt < 256) (hfit : fitW w m) (h63 : m < 2 ^ 63) :
    ∃ b l, encHeadW mt w m = b :: l ∧ mjOf b = mt ∧ mnOf b ≠ 31 ∧
      decodeIntAdditionalType (mnOf b) (l ++ rest) = .ok ((m : Int), rest) := by
  rcases hfit with ⟨rfl, hlt⟩ | hext
  · refine ⟨mt + m, [], by simp [encHeadW], by unfold mjOf; omega, by unfold mnOf; omega, ?_⟩
    have hmn : mnOf (mt + m) = m := by unfold mnOf; omega
    rw [hmn, decodeIntAdditionalType, if_pos (by omega : m ≤ 23)]
    simp
  · have hw0 : w ≠ 0 := by rcases hext with ⟨rfl, _⟩ | ⟨rfl, _⟩ | ⟨rfl, _⟩ | rfl <;> omega
    have hmr : minorForW w = 24 ∨ minorForW w = 25 ∨ minorForW w = 26 ∨
        minorForW w = 27 := by
      rcases hext with ⟨rfl, _⟩ | ⟨rfl, _⟩ | ⟨rfl, _⟩ | rfl <;> simp [minorForW]
    have hmn : mnOf (mt + minorForW w) = minorForW w := by unfold mnOf; omega
    refine ⟨mt + minorForW w, beBytes w m, by simp [encHeadW, hw0],
      by unfold mjOf; omega, by rw [hmn]; omega, ?_⟩
    rw [hmn]
    exact dIAT_ext w m rest hext h63

/-- Reference escaper: one pass over the payload, processing each position the
way `decodeUTF8String`/`decodeStringComplex` classify it — simple printable
ASCII verbatim, escapes for the rest, one `�` per byte at which UTF-8
decoding fails (advancing by the width 1 that the rune decoder reports),
valid multi-byte runes verbatim. -/
def escSpec : List Nat → List Nat
  | [] => []
  | b :: bs =>
    if 0x80 ≤ b then
      match hw : utf8Width (b :: bs) with
      | none => replacementSeq ++ escSpec bs
      | some k => List.take k (b :: bs) ++ escSpec (List.drop k (b :: bs))
    else if simpleByte b then b :: escSpec bs
    else escByte b ++ escSpec bs
termination_by l => l.length
decreasing_by
  · simp
  · have hk := utf8Width_pos hw
    simp
    omega
  · simp
  · simp

theorem escSpec_nil : escSpec [] = [] := by rw [escSpec]

theorem escSpec_cons_invalid (b : Nat) (bs : List Nat) (hb : 0x80 ≤ b)
    (hw : utf8Width (b :: bs) = none) :
    escSpec (b :: bs) = replacementSeq ++ escSpec bs := by
  rw [escSpec, if_pos hb]
  split
  · rfl
  · rename_i k hk
    rw [hw] at hk
    exact absurd hk (by simp)

theorem escSpec_cons_valid (b : Nat) (bs : List Nat) (k : Nat) (hb : 0x80 ≤ b)
    (hw : utf8Width (b :: bs) = some k) :
    escSpec (b :: bs) = List.take k (b :: bs) ++ escSpec (List.drop k (b :: bs)) := by
  rw [escSpec, if_pos hb]
  split
  · rename_i hk
    rw [hw] at hk
    exact absurd hk (by simp)
  · rename_i k' hk
    rw [hw] at hk
    cases hk
    rfl

theorem escSpec_cons_simple (b : Nat) (bs : List Nat) (hs : simpleByte b) :
    escSpec (b :: bs) = b :: escSpec bs := by
  have hb : ¬ 0x80 ≤ b := by
    simp only [simpleByte, decide_eq_true_eq] at hs
    omega
  rw [escSpec, if_neg hb, if_pos hs]

theorem escSpec_cons_escape (b : Nat) (bs : List Nat) (hb : b < 0x80)
    (hs : ¬ simpleByte b) :
    escSpec (b :: bs) = escByte b ++ escSpec bs := by
  rw [escSpec, if_neg (by omega), if_neg hs]

theorem escSpec_all_simple (p : List Nat) (h : ∀ b ∈ p, simpleByte b) :
    escSpec p = p := by
  induction p with
  | nil => exact escSpec_nil
  | cons b bs ih =>
    rw [escSpec_cons_simple b bs (h b (by simp)), ih (fun x hx => h x (by simp [hx]))]

theorem escSpec_append_simple (p q : List Nat) (h : ∀ b ∈ p, simpleByte b) :
    escSpec (p ++ q) = p ++ escSpec q := by
  induction p with
  | nil => simp
  | cons b bs ih =>
    rw [List.cons_append, escSpec_cons_simple b _ (h b (by simp)),
      ih (fun x hx => h x (by simp [hx]))]
    simp

/-- The chunked scan of `decodeStringComplex` agrees with the one-pass
reference escaper: if the output so far accounts for the bytes before `i`
(the pending verbatim chunk `[start, i)` is exactly what the escaper would
copy), the loop produces `dst` followed by the escape of the remaining
suffix. -/
theorem dscLoop_escSpec (s : List Nat) (i : Nat) (dst : List Nat) (start : Nat)
    (h1 : start ≤ i) (h2 : i ≤ s.length)
    (hinv : escSpec (s.drop start) =
      (s.drop start).take (i - start) ++ escSpec (s.drop i)) :
    dscLoop s dst start i = dst ++ escSpec (s.drop start) := by
  rw [dscLoop]
  by_cases hlt : i < s.length
  · rw [dif_pos hlt]
    have hdropi : s.drop i = s.getD i 0 :: s.drop (i + 1) := by
      rw [List.drop_eq_getElem_cons hlt, List.getD_eq_getElem s 0 hlt]
    have hdrop_eq : (s.drop start).drop (i - start) = s.drop i := by
      rw [List.drop_drop]
      congr 1
      omega
    by_cases hb : 0x80 ≤ s.getD i 0
    · rw [if_pos hb]
      rcases hwc : utf8Width (s.drop i) with _ | k
      · -- invalid byte: emit the pending chunk and a replacement, restart at i+1
        rw [hdropi] at hwc
        split
        · rw [dscLoop_escSpec s (i + 1) _ (i + 1) (le_refl _) (by omega)
            (by simp [Nat.sub_self])]
          rw [hinv, hdropi, escSpec_cons_invalid _ _ hb hwc]
          simp
        · rename_i k' hw'
          exact absurd hw' (by simp)
      · -- valid rune of width k: skip it, keep the chunk open
        rw [hdropi] at hwc
        have hk1 : 1 ≤ k := utf8Width_pos hwc
        have hkle : k ≤ s.length - i := by
          have hle := utf8Width_le hwc
          simp only [List.length_cons, List.length_drop] at hle
          omega
        split
        · rename_i hw'
          exact absurd hw' (by simp)
        · rename_i k' hw'
          have hkk : k' = k := (Option.some.inj hw').symm
          rw [hkk]
          rw [dscLoop_escSpec s (i + k) dst start (by omega) (by omega) ?_]
          rw [hinv]
          have hsplit : i + k - start = (i - start) + k := by omega
          rw [hsplit, List.take_add, hdrop_eq, List.append_assoc]
          congr 1
          rw [hdropi, escSpec_cons_valid _ _ k hb hwc, ← hdropi]
          congr 1
          rw [List.drop_drop]
    · rw [if_neg hb]
      by_cases hs : simpleByte (s.getD i 0)
      · -- simple byte: extend the pending chunk
        rw [if_pos hs]
        rw [dscLoop_escSpec s (i + 1) dst start (by omega) (by omega) ?_]
        rw [hinv]
        have hsplit : i + 1 - start = (i - start) + 1 := by omega
        rw [hsplit, List.take_add, hdrop_eq, List.append_assoc]
        congr 1
        rw [hdropi, escSpec_cons_simple _ _ hs]
        simp
      · -- byte needing a JSON escape: flush the chunk and emit the escape
        rw [if_neg hs]
        rw [dscLoop_escSpec s (i + 1) _ (i + 1) (le_refl _) (by omega)
          (by simp [Nat.sub_self])]
        rw [hinv, hdropi, escSpec_cons_escape _ _ (by omega) hs]
        simp
  · rw [dif_neg hlt]
    have hieq : i = s.length := by omega
    subst hieq
    rw [hinv, List.drop_length, escSpec_nil, List.append_nil,
      List.take_of_length_le (by simp)]
termination_by s.length - i
decreasing_by
  all_goals omega

theorem firstBad_none (p : List Nat) (h : firstBad p = none) : ∀ b ∈ p, simpleByte b := by
  induction p with
  | nil => simp
  | cons b bs ih =>
    rw [firstBad] at h
    split at h
    · exact absurd h (by simp)
    · rename_i hesc
      have hbs : firstBad bs = none := by
        rcases hfb : firstBad bs with _ | j
        · rfl
        · rw [hfb] at h
          simp at h
      intro x hx
      rcases List.mem_cons.mp hx with rfl | hxs
      · simp only [simpleByte, decide_eq_true_eq]
        push_neg at hesc
        omega
      · exact ih hbs x hxs

theorem firstBad_some (p : List Nat) (i : Nat) (h : firstBad p = some i) :
    i < p.length ∧ ∀ b ∈ p.take i, simpleByte b := by
  induction p generalizing i with
  | nil => simp [firstBad] at h
  | cons b bs ih =>
    rw [firstBad] at h
    split at h
    · rename_i hesc
      have hi : i = 0 := (Option.some.inj h).symm
      subst hi
      exact ⟨by simp, by simp⟩
    · rename_i hesc
      rcases hfb : firstBad bs with _ | j
      · rw [hfb] at h
        simp at h
      · rw [hfb] at h
        have hi : i = j + 1 := by
          simp at h
          omega
        subst hi
        obtain ⟨hlt, hpre⟩ := ih j hfb
        refine ⟨by simpa using hlt, ?_⟩
        intro x hx
        rw [List.take_succ_cons] at hx
        rcases List.mem_cons.mp hx with rfl | hxs
        · simp only [simpleByte, decide_eq_true_eq]
          push_neg at hesc
          omega
        · exact hpre x hxs

/-- `decodeUTF8String` on a well-formed header and payload produces exactly
the quoted reference escape of the payload, consuming exactly the header and
payload bytes. -/
theorem decodeUTF8String_spec (w : Nat) (p rest : List Nat)
    (hfit : fitW w p.length) (h63 : (p.length : Nat) < 2 ^ 63) :
    decodeUTF8String (encHeadW majorTypeUtf8String w p.length ++ (p ++ rest)) =
      .ok ([34] ++ escSpec p ++ [34], rest) := by
  obtain ⟨b, l, henc, hmj, _, hdec⟩ :=
    encHeadW_decode majorTypeUtf8String w p.length (p ++ rest) (by rfl)
      (by norm_num [majorTypeUtf8String]) hfit h63
  rw [henc, List.cons_append, decodeUTF8String]
  have hnn : ¬ ((p.length : Int) < 0) := by omega
  have htn : (p.length : Int).toNat = p.length := Int.toNat_natCast _
  simp only [readByte, hmj, hdec, if_neg hnn, htn, readNBytes_exact p rest]
  rw [if_neg (by simp)]
  rcases hfb : firstBad p with _ | i
  · rw [escSpec_all_simple p (firstBad_none p hfb)]
  · obtain ⟨hlt, hpre⟩ := firstBad_some p i hfb
    have hpeq : p = p.take i ++ p.drop i := (List.take_append_drop i p).symm
    unfold decodeStringComplex
    show Except.ok (dscLoop p [34] 0 i ++ [34], rest) = _
    rw [dscLoop_escSpec p i [34] 0 (by omega) (by omega) ?_]
    · rw [List.drop_zero]
    · rw [List.drop_zero]
      calc escSpec p = escSpec (p.take i ++ p.drop i) := by rw [← hpeq]
        _ = p.take i ++ escSpec (p.drop i) := escSpec_append_simple _ _ hpre
        _ = p.take (i - 0) ++ escSpec (p.drop i) := by rw [Nat.sub_zero]

/-- C7.  Decoding a UTF-8 string (any admissible header width) terminates and
emits a quoted string equal to the reference escape of the payload, in which:
a tab byte becomes `\t`; a double quote becomes `\"`; each byte at which
UTF-8 decoding fails (Go's rune decoder reports width 1 for every invalid
sequence) becomes the six characters `�`, the scan advancing past it;
every other control byte (and `0x7F`) becomes a `\u00XX` two-hex-digit
escape; simple printable ASCII bytes are preserved verbatim; and an
all-simple payload is copied verbatim between the quotes. -/
theorem C7_utf8_escaping :
    (∀ (w : Nat) (p rest : List Nat), fitW w p.length → (p.length : Nat) < 2 ^ 63 →
      decodeUTF8String (encHeadW majorTypeUtf8String w p.length ++ (p ++ rest)) =
        .ok ([34] ++ escSpec p ++ [34], rest)) ∧
    (∀ q, escSpec (9 :: q) = [92, 116] ++ escSpec q) ∧
    (∀ q, escSpec (34 :: q) = [92, 34] ++ escSpec q) ∧
    (∀ b q, 0x80 ≤ b → utf8Width (b :: q) = none →
      escSpec (b :: q) = [92, 117, 102, 102, 102, 100] ++ escSpec q) ∧
    (∀ b q, b < 0x20 → b ≠ 8 → b ≠ 9 → b ≠ 10 → b ≠ 12 → b ≠ 13 →
      escSpec (b :: q) =
        [92, 117, 48, 48, hexTable.getD (b / 16) 0, hexTable.getD (b % 16) 0] ++
          escSpec q) ∧
    (∀ b q, simpleByte b → escSpec (b :: q) = b :: escSpec q) ∧
    (∀ p, (∀ b ∈ p, simpleByte b) → escSpec p = p) := by
  refine ⟨decodeUTF8String_spec, ?_, ?_, ?_, ?_, escSpec_cons_simple, escSpec_all_simple⟩
  · intro q
    rw [escSpec_cons_escape 9 q (by omega) (by simp [simpleByte])]
    rfl
  · intro q
    rw [escSpec_cons_escape 34 q (by omega) (by simp [simpleByte])]
    rfl
  · intro b q hb hw
    exact escSpec_cons_invalid b q hb hw
  · intro b q hlt h8 h9 h10 h12 h13
    rw [escSpec_cons_escape b q (by omega) (by simp [simpleByte]; omega)]
    rw [escByte, if_neg (by omega), if_neg h8, if_neg h12, if_neg h10, if_neg h13,
      if_neg h9]

/-- C7 — witness: the payload `'a' TAB '"' 0x80 'b'` under an immediate-length
header decodes to `"a\t\"�b"`. -/
theorem C7_utf8_escaping_witness :
    (fitW 0 ([97, 9, 34, 128, 98] : List Nat).length ∧
      (([97, 9, 34, 128, 98] : List Nat).length : Nat) < 2 ^ 63) ∧
    decodeUTF8String (encHeadW majorTypeUtf8String 0 ([97, 9, 34, 128, 98] : List Nat).length
        ++ ([97, 9, 34, 128, 98] ++ [])) =
      .ok ([34] ++ escSpec [97, 9, 34, 128, 98] ++ [34], []) :=
  ⟨⟨Or.inl ⟨rfl, by norm_num⟩, by norm_num⟩,
    C7_utf8_escaping.1 0 [97, 9, 34, 128, 98] [] (Or.inl ⟨rfl, by norm_num⟩) (by norm_num)⟩

/-! ## Claims C6 and C10: composite decoding

A document model for arbitrarily mixed nestings of definite- and
indefinite-length arrays and maps (with integer leaves), the wire encoding the
paired encoder would produce for it, and the JSON text the decoder is expected
to emit. -/

mutual
inductive Val where
  | vint : Int → Val
  | varr : Bool → ValList → Val
  | vmap : Bool → ValList → Val
deriving Repr
inductive ValList where
  | vnil : ValList
  | vcons : Val → ValList → ValList
deriving Repr
end

/-- Number of immediate items. -/
def lenL : ValList → Nat
  | .vnil => 0
  | .vcons _ vs => lenL vs + 1

/-- The magnitude the integer encoder writes. -/
def magOf (n : Int) : Nat := if 0 ≤ n then n.toNat else (-1 - n).toNat

/-- Minimal admissible width for a magnitude (the paired encoder's choice). -/
def widthFor (m : Nat) : Nat :=
  if m < 24 then 0 else if m < 2 ^ 8 then 1 else if m < 2 ^ 16 then 2
  else if m < 2 ^ 32 then 4 else 8

theorem widthFor_fit (m : Nat) : fitW (widthFor m) m := by
  unfold widthFor fitW
  split_ifs <;> simp_all <;> omega

mutual

/-- Wire encoding: integers via `encInt`, a definite array/map as a
count-carrying header followed by the element encodings, an indefinite one as
the `0x9F`/`0xBF` header with the elements terminated by the break byte. -/
def encodeVal : Val → List Nat
  | .vint n => encInt (widthFor (magOf n)) n
  | .varr false es => encHeadW majorTypeArray (widthFor (lenL es)) (lenL es) ++ encList es
  | .varr true es => 0x9f :: (encList es ++ [0xff])
  | .vmap false es => encHeadW majorTypeMap (widthFor (lenL es)) (lenL es) ++ encList es
  | .vmap true es => 0xbf :: (encList es ++ [0xff])

def encList : ValList → List Nat
  | .vnil => []
  | .vcons v vs => encodeVal v ++ encList vs

end

mutual

/-- The JSON text the decoder emits: brackets around comma-separated array
elements; braces around map items with `:` after even-positioned items and
`,` after odd-positioned items that are not last. -/
def renderVal : Val → List Nat
  | .vint n => itoa n
  | .varr _ es => 91 :: (renderArr es ++ [93])
  | .vmap _ es => 123 :: (renderMap 0 es ++ [125])

def renderArr : ValList → List Nat
  | .vnil => []
  | .vcons v .vnil => renderVal v
  | .vcons v vs => renderVal v ++ 44 :: renderArr vs

def renderMap : Nat → ValList → List Nat
  | _, .vnil => []
  | i, .vcons v vs =>
    if i % 2 = 0 then renderVal v ++ 58 :: renderMap (i + 1) vs
    else
      match vs with
      | .vnil => renderVal v
      | _ => renderVal v ++ 44 :: renderMap (i + 1) vs

end

mutual

/-- Fuel cost bound for the decoder on an encoded document. -/
def costV : Val → Nat
  | .vint _ => 1
  | .varr _ es => 2 + costL es
  | .vmap _ es => 2 + costL es

def costL : ValList → Nat
  | .vnil => 1
  | .vcons v vs => 1 + costV v + costL vs

end

mutual

/-- Well-formedness: every integer leaf is representable in 64 bits, and
every composite's item count is below `2^63` (so the decoder's `int64` length
does not wrap). -/
def wfV : Val → Prop
  | .vint n => -(2 ^ 63) ≤ n ∧ n < 2 ^ 63
  | .varr _ es => lenL es < 2 ^ 63 ∧ wfL es
  | .vmap _ es => lenL es < 2 ^ 63 ∧ wfL es

def wfL : ValList → Prop
  | .vnil => True
  | .vcons v vs => wfV v ∧ wfL vs

end

mutual

/-- Nesting depth: composites one deeper than their deepest child. -/
def depthV : Val → Nat
  | .vint _ => 0
  | .varr _ es => 1 + depthL es
  | .vmap _ es => 1 + depthL es

def depthL : ValList → Nat
  | .vnil => 0
  | .vcons v vs => max (depthV v) (depthL vs)

end

mutual

/-- Number of array values in a document. -/
def arrN : Val → Nat
  | .vint _ => 0
  | .varr _ es => 1 + arrNL es
  | .vmap _ es => arrNL es

def arrNL : ValList → Nat
  | .vnil => 0
  | .vcons v vs => arrN v + arrNL vs

end

mutual

/-- Number of map values in a document. -/
def mapN : Val → Nat
  | .vint _ => 0
  | .varr _ es => mapNL es
  | .vmap _ es => 1 + mapNL es

def mapNL : ValList → Nat
  | .vnil => 0
  | .vcons v vs => mapN v + mapNL vs

end

/-- Every `encHeadW` header under a fitting width starts with a byte below
the break byte. -/
theorem encHeadW_head_lt (mt w m : Nat) (hmt : mt ≤ 0xc0) (hfit : fitW w m) :
    ∃ b l, encHeadW mt w m = b :: l ∧ b < 255 := by
  rcases hfit with ⟨rfl, hlt⟩ | hext
  · exact ⟨mt + m, [], by simp [encHeadW], by omega⟩
  · have hw0 : w ≠ 0 := by rcases hext with ⟨rfl, _⟩ | ⟨rfl, _⟩ | ⟨rfl, _⟩ | rfl <;> omega
    have hmr : minorForW w ≤ 27 := by
      rcases hext with ⟨rfl, _⟩ | ⟨rfl, _⟩ | ⟨rfl, _⟩ | rfl <;> simp [minorForW]
    exact ⟨mt + minorForW w, beBytes w m, by simp [encHeadW, hw0], by omega⟩

/-- Every encoded value starts with a byte that is not the break byte. -/
theorem encodeVal_head (t : Val) : ∃ b l, encodeVal t = b :: l ∧ b < 255 := by
  cases t with
  | vint n =>
    rw [encodeVal]
    unfold encInt
    by_cases hn : 0 ≤ n
    · rw [if_pos hn]
      have hmag : magOf n = n.toNat := by rw [magOf, if_pos hn]
      rw [← hmag]
      exact encHeadW_head_lt _ _ _ (by norm_num [majorTypeUnsignedInt]) (widthFor_fit _)
    · rw [if_neg hn]
      have hmag : magOf n = (-1 - n).toNat := by rw [magOf, if_neg hn]
      rw [← hmag]
      exact encHeadW_head_lt _ _ _ (by norm_num [majorTypeNegativeInt]) (widthFor_fit _)
  | varr ind es =>
    cases ind
    · rw [encodeVal]
      obtain ⟨b, l, he, hb⟩ :=
        encHeadW_head_lt majorTypeArray (widthFor (lenL es)) (lenL es)
          (by norm_num [majorTypeArray]) (widthFor_fit _)
      exact ⟨b, l ++ encList es, by rw [he, List.cons_append], hb⟩
    · exact ⟨0x9f, encList es ++ [0xff], by rw [encodeVal], by omega⟩
  | vmap ind es =>
    cases ind
    · rw [encodeVal]
      obtain ⟨b, l, he, hb⟩ :=
        encHeadW_head_lt majorTypeMap (widthFor (lenL es)) (lenL es)
          (by norm_num [majorTypeMap]) (widthFor_fit _)
      exact ⟨b, l ++ encList es, by rw [he, List.cons_append], hb⟩
    · exact ⟨0xbf, encList es ++ [0xff], by rw [encodeVal], by omega⟩

theorem writeTo_never (sink : Sink) (bs : List Nat) (msg : String) :
    writeTo neverFails sink bs msg =
      ⟨sink.out ++ bs, sink.attempts ++ [bs], sink.log⟩ := by
  simp [writeTo, neverFails]

/-- Dispatch of the peeked byte to `array2Json`. -/
theorem oneObject_dispatch_arr (E : Ext) (wf : Nat → Bool) (f : Nat) (b : Nat)
    (l : List Nat) (sink : Sink) (hmj : mjOf b = majorTypeArray) :
    cbor2JsonOneObject E wf (f + 1) (b :: l) sink = array2Json E wf f (b :: l) sink := by
  simp only [cbor2JsonOneObject, hmj]
  norm_num [majorTypeUnsignedInt, majorTypeNegativeInt, majorTypeByteString,
    majorTypeUtf8String, majorTypeArray, majorTypeMap]

/-- Dispatch of the peeked byte to `map2Json`. -/
theorem oneObject_dispatch_map (E : Ext) (wf : Nat → Bool) (f : Nat) (b : Nat)
    (l : List Nat) (sink : Sink) (hmj : mjOf b = majorTypeMap) :
    cbor2JsonOneObject E wf (f + 1) (b :: l) sink = map2Json E wf f (b :: l) sink := by
  simp only [cbor2JsonOneObject, hmj]
  norm_num [majorTypeUnsignedInt, majorTypeNegativeInt, majorTypeByteString,
    majorTypeUtf8String, majorTypeArray, majorTypeMap]

mutual

/-- Round trip of one encoded document through the dispatcher: exactly
`renderVal t` is written and exactly the encoding is consumed. -/
theorem rt_obj (t : Val) (hwf : wfV t) (E : Ext) (fuel : Nat) (hfuel : costV t ≤ fuel)
    (rest : List Nat) (sink : Sink) :
    ∃ att, cbor2JsonOneObject E neverFails fuel (encodeVal t ++ rest) sink =
      (⟨sink.out ++ renderVal t, att, sink.log⟩, .ok rest) := by
  cases t with
  | vint n =>
    obtain ⟨f, rfl⟩ : ∃ f, fuel = f + 1 := ⟨fuel - 1, by simp [costV] at hfuel; omega⟩
    obtain ⟨hlo, hhi⟩ : -(2 ^ 63) ≤ n ∧ n < 2 ^ 63 := hwf
    obtain ⟨b, l, henc, _, hdec⟩ :=
      decodeInteger_enc (widthFor (magOf n)) n rest
        (by
          have h := widthFor_fit (magOf n)
          rwa [show magOf n = (if 0 ≤ n then n.toNat else (-1 - n).toNat) from rfl] at h)
        hlo hhi
    refine ⟨sink.attempts ++ [itoa n], ?_⟩
    rw [show encodeVal (.vint n) = encInt (widthFor (magOf n)) n from rfl, henc,
      List.cons_append]
    simp only [cbor2JsonOneObject]
    rw [if_pos (by
      unfold mjOf majorTypeUnsignedInt majorTypeNegativeInt
      omega)]
    simp [hdec, writeTo_never, renderVal]
  | varr ind es =>
    cases ind
    · -- definite-length array
      obtain ⟨hlen, hwfl⟩ : lenL es < 2 ^ 63 ∧ wfL es := hwf
      obtain ⟨f, rfl⟩ : ∃ f, fuel = f + 2 :=
        ⟨fuel - 2, by simp [costV] at hfuel; omega⟩
      obtain ⟨b, l, henc, hmj, hne31, hdec⟩ :=
        encHeadW_decode majorTypeArray (widthFor (lenL es)) (lenL es)
          (encList es ++ rest) (by rfl) (by norm_num [majorTypeArray])
          (widthFor_fit _) hlen
      obtain ⟨att, hloop⟩ := (rt_list es hwfl E f
        (by simp [costV] at hfuel; omega) rest
        ⟨sink.out ++ [91], sink.attempts ++ [[91]], sink.log⟩).1 0
      refine ⟨att ++ [[93]], ?_⟩
      rw [show encodeVal (.varr false es) =
          encHeadW majorTypeArray (widthFor (lenL es)) (lenL es) ++ encList es from rfl,
        henc, List.append_assoc, List.cons_append,
        oneObject_dispatch_arr E neverFails (f + 1) b _ sink hmj]
      rw [array2Json, writeTo_never]
      simp only [readByte]
      rw [if_neg (by rw [hmj]; simp), if_neg (by
        rw [show additionalTypeInfiniteCount = 31 from rfl]
        exact hne31)]
      simp only [Nat.zero_add] at hloop
      simp [hdec, hloop, writeTo_never, renderVal]
    · -- indefinite array
      obtain ⟨_, hwfl⟩ : lenL es < 2 ^ 63 ∧ wfL es := hwf
      obtain ⟨f, rfl⟩ : ∃ f, fuel = f + 2 :=
        ⟨fuel - 2, by simp [costV] at hfuel; omega⟩
      obtain ⟨att, hloop⟩ := (rt_list es hwfl E f
        (by simp [costV] at hfuel; omega) rest
        ⟨sink.out ++ [91], sink.attempts ++ [[91]], sink.log⟩).2.1 0 0
      refine ⟨att ++ [[93]], ?_⟩
      rw [show encodeVal (.varr true es) ++ rest =
          0x9f :: (encList es ++ 255 :: rest) by simp [encodeVal]]
      rw [oneObject_dispatch_arr E neverFails (f + 1) 0x9f _ sink
        (by norm_num [mjOf, majorTypeArray])]
      rw [array2Json, writeTo_never]
      simp only [readByte]
      rw [if_neg (by norm_num [mjOf, majorTypeArray]),
        if_pos (by norm_num [mnOf, additionalTypeInfiniteCount])]
      simp [hloop, writeTo_never, renderVal]
  | vmap ind es =>
    cases ind
    · -- definite-length map
      obtain ⟨hlen, hwfl⟩ : lenL es < 2 ^ 63 ∧ wfL es := hwf
      obtain ⟨f, rfl⟩ : ∃ f, fuel = f + 2 :=
        ⟨fuel - 2, by simp [costV] at hfuel; omega⟩
      obtain ⟨b, l, henc, hmj, hne31, hdec⟩ :=
        encHeadW_decode majorTypeMap (widthFor (lenL es)) (lenL es)
          (encList es ++ rest) (by rfl) (by norm_num [majorTypeMap])
          (widthFor_fit _) hlen
      obtain ⟨att, hloop⟩ := (rt_list es hwfl E f
        (by simp [costV] at hfuel; omega) rest
        ⟨sink.out ++ [123], sink.attempts ++ [[123]], sink.log⟩).2.2.1 0
      refine ⟨att ++ [[125]], ?_⟩
      rw [show encodeVal (.vmap false es) =
          encHeadW majorTypeMap (widthFor (lenL es)) (lenL es) ++ encList es from rfl,
        henc, List.append_assoc, List.cons_append,
        oneObject_dispatch_map E neverFails (f + 1) b _ sink hmj]
      rw [map2Json]
      simp only [readByte]
      rw [if_neg (by rw [hmj]; simp), if_neg (by
        rw [show additionalTypeInfiniteCount = 31 from rfl]
        exact hne31)]
      simp only [Nat.zero_add] at hloop
      simp [hdec, hloop, writeTo_never, renderVal]
    · -- indefinite map
      obtain ⟨_, hwfl⟩ : lenL es < 2 ^ 63 ∧ wfL es := hwf
      obtain ⟨f, rfl⟩ : ∃ f, fuel = f + 2 :=
        ⟨fuel - 2, by simp [costV] at hfuel; omega⟩
      obtain ⟨att, hloop⟩ := (rt_list es hwfl E f
        (by simp [costV] at hfuel; omega) rest
        ⟨sink.out ++ [123], sink.attempts ++ [[123]], sink.log⟩).2.2.2 0 0
      refine ⟨att ++ [[125]], ?_⟩
      rw [show encodeVal (.vmap true es) ++ rest =
          0xbf :: (encList es ++ 255 :: rest) by simp [encodeVal]]
      rw [oneObject_dispatch_map E neverFails (f + 1) 0xbf _ sink
        (by norm_num [mjOf, majorTypeMap])]
      rw [map2Json]
      simp only [readByte]
      rw [if_neg (by norm_num [mjOf, majorTypeMap]),
        if_pos (by norm_num [mnOf, additionalTypeInfiniteCount])]
      simp [hloop, writeTo_never, renderVal]

/-- Round trip of the element/item loops over an encoded element list, all
four loop modes at once. -/
theorem rt_list (es : ValList) (hwf : wfL es) (E : Ext) (fuel : Nat)
    (hfuel : costL es ≤ fuel) (rest : List Nat) (sink : Sink) :
    (∀ i, ∃ att, arrayLoop E neverFails fuel false ((i + lenL es : Nat) : Int) i
        (encList es ++ rest) sink =
      (⟨sink.out ++ renderArr es, att, sink.log⟩, .ok rest)) ∧
    (∀ i len2, ∃ att, arrayLoop E neverFails fuel true len2 i
        (encList es ++ 255 :: rest) sink =
      (⟨sink.out ++ renderArr es, att, sink.log⟩, .ok rest)) ∧
    (∀ i, ∃ att, mapLoop E neverFails fuel false ((i + lenL es : Nat) : Int) i
        (encList es ++ rest) sink =
      (⟨sink.out ++ renderMap i es, att, sink.log⟩, .ok rest)) ∧
    (∀ i len2, ∃ att, mapLoop E neverFails fuel true len2 i
        (encList es ++ 255 :: rest) sink =
      (⟨sink.out ++ renderMap i es, att, sink.log⟩, .ok rest)) := by
  cases es with
  | vnil =>
    obtain ⟨f, rfl⟩ : ∃ f, fuel = f + 1 := ⟨fuel - 1, by simp [costL] at hfuel; omega⟩
    refine ⟨?_, ?_, ?_, ?_⟩
    · intro i
      refine ⟨sink.attempts, ?_⟩
      rw [arrayLoop.eq_def]
      simp only []
      rw [if_neg (by push_cast; simp [lenL])]
      simp [renderArr, encList]
    · intro i len2
      refine ⟨sink.attempts, ?_⟩
      rw [arrayLoop.eq_def]
      simp only []
      rw [if_pos (Or.inl trivial)]
      simp [renderArr, encList, breakCode, majorTypeSimpleAndFloat, additionalTypeBreak]
    · intro i
      refine ⟨sink.attempts, ?_⟩
      rw [mapLoop.eq_def]
      simp only []
      rw [if_neg (by push_cast; simp [lenL])]
      simp [renderMap, encList]
    · intro i len2
      refine ⟨sink.attempts, ?_⟩
      rw [mapLoop.eq_def]
      simp only []
      rw [if_pos (Or.inl trivial)]
      simp [renderMap, encList, breakCode, majorTypeSimpleAndFloat, additionalTypeBreak]
  | vcons v vs =>
    obtain ⟨hwv, hwl⟩ : wfV v ∧ wfL vs := hwf
    obtain ⟨f, rfl⟩ : ∃ f, fuel = f + 1 := ⟨fuel - 1, by simp [costL] at hfuel; omega⟩
    have hfv : costV v ≤ f := by simp [costL] at hfuel; omega
    have hfl : costL vs ≤ f := by simp [costL] at hfuel; omega
    obtain ⟨bh, lh, hhead, hblt⟩ := encodeVal_head v
    refine ⟨?_, ?_, ?_, ?_⟩
    · -- definite array step
      intro i
      obtain ⟨att1, hobj⟩ := rt_obj v hwv E f hfv (encList vs ++ rest) sink
      rw [arrayLoop.eq_def]
      simp only []
      rw [if_pos (Or.inr (by push_cast [lenL]; omega))]
      rw [show encList (.vcons v vs) ++ rest = encodeVal v ++ (encList vs ++ rest) by
        simp [encList]]
      simp only [Bool.false_eq_true, if_false, hobj]
      cases vs with
      | vnil =>
        obtain ⟨att2, hloop⟩ := (rt_list .vnil trivial E f hfl rest
          ⟨sink.out ++ renderVal v, att1, sink.log⟩).1 (i + 1)
        rw [if_neg (by push_cast [lenL]; omega)]
        refine ⟨att2, ?_⟩
        rw [show ((i + lenL (.vcons v .vnil) : Nat) : Int) =
            (((i + 1) + lenL (.vnil) : Nat) : Int) by push_cast [lenL]; omega] at *
        rw [hloop]
        simp [renderArr]
      | vcons v2 vs2 =>
        obtain ⟨att2, hloop⟩ := (rt_list (.vcons v2 vs2) hwl E f hfl rest
          ⟨(sink.out ++ renderVal v) ++ [44], att1 ++ [[44]], sink.log⟩).1 (i + 1)
        rw [if_pos (by push_cast [lenL]; omega), writeTo_never]
        refine ⟨att2, ?_⟩
        rw [show ((i + lenL (.vcons v (.vcons v2 vs2)) : Nat) : Int) =
            (((i + 1) + lenL (.vcons v2 vs2) : Nat) : Int) by push_cast [lenL]; omega]
        rw [hloop]
        simp [renderArr]
    · -- indefinite array step
      intro i len2
      obtain ⟨att1, hobj⟩ := rt_obj v hwv E f hfv (encList vs ++ 255 :: rest) sink
      rw [arrayLoop.eq_def]
      simp only []
      rw [if_pos (Or.inl trivial)]
      rw [show encList (.vcons v vs) ++ 255 :: rest =
          encodeVal v ++ (encList vs ++ 255 :: rest) by simp [encList]]
      rw [hhead, List.cons_append]
      rw [if_pos trivial]
      simp only []
      rw [if_neg (by
        rw [show breakCode = 255 from rfl]
        omega)]
      rw [← List.cons_append, ← hhead, hobj]
      simp only []
      cases vs with
      | vnil =>
        refine ⟨att1, ?_⟩
        rw [show encList ValList.vnil ++ 255 :: rest = 255 :: rest by simp [encList]]
        simp only []
        rw [if_pos (show (255 : Nat) = breakCode from rfl)]
        simp [renderArr]
      | vcons v2 vs2 =>
        obtain ⟨bh2, lh2, hhead2, hblt2⟩ := encodeVal_head v2
        obtain ⟨att2, hloop⟩ := (rt_list (.vcons v2 vs2) hwl E f hfl rest
          ⟨(sink.out ++ renderVal v) ++ [44], att1 ++ [[44]], sink.log⟩).2.1 (i + 1) len2
        refine ⟨att2, ?_⟩
        rw [show encList (.vcons v2 vs2) ++ 255 :: rest =
            encodeVal v2 ++ (encList vs2 ++ 255 :: rest) by simp [encList],
          hhead2, List.cons_append]
        simp only []
        rw [if_neg (by
          rw [show breakCode = 255 from rfl]
          omega), writeTo_never]
        rw [← List.cons_append, ← hhead2,
          show encodeVal v2 ++ (encList vs2 ++ 255 :: rest) =
            encList (.vcons v2 vs2) ++ 255 :: rest by simp [encList], hloop]
        simp [renderArr]
    · -- definite map step
      intro i
      obtain ⟨att1, hobj⟩ := rt_obj v hwv E f hfv (encList vs ++ rest) sink
      rw [mapLoop.eq_def]
      simp only []
      rw [if_pos (Or.inr (by push_cast [lenL]; omega))]
      rw [show encList (.vcons v vs) ++ rest = encodeVal v ++ (encList vs ++ rest) by
        simp [encList]]
      simp only [Bool.false_eq_true, if_false, hobj]
      by_cases hpar : i % 2 = 0
      · obtain ⟨att2, hloop⟩ := (rt_list vs hwl E f hfl rest
          ⟨(sink.out ++ renderVal v) ++ [58], att1 ++ [[58]], sink.log⟩).2.2.1 (i + 1)
        rw [if_pos hpar, writeTo_never]
        refine ⟨att2, ?_⟩
        rw [show ((i + lenL (.vcons v vs) : Nat) : Int) =
            (((i + 1) + lenL vs : Nat) : Int) by push_cast [lenL]; omega, hloop]
        simp [renderMap, hpar]
      · rw [if_neg hpar]
        cases vs with
        | vnil =>
          obtain ⟨att2, hloop⟩ := (rt_list .vnil trivial E f hfl rest
            ⟨sink.out ++ renderVal v, att1, sink.log⟩).2.2.1 (i + 1)
          rw [if_neg (by push_cast [lenL]; omega)]
          refine ⟨att2, ?_⟩
          rw [show ((i + lenL (.vcons v .vnil) : Nat) : Int) =
              (((i + 1) + lenL (.vnil) : Nat) : Int) by push_cast [lenL]; omega, hloop]
          simp [renderMap, hpar]
        | vcons v2 vs2 =>
          obtain ⟨att2, hloop⟩ := (rt_list (.vcons v2 vs2) hwl E f hfl rest
            ⟨(sink.out ++ renderVal v) ++ [44], att1 ++ [[44]], sink.log⟩).2.2.1 (i + 1)
          rw [if_pos (by push_cast [lenL]; omega), writeTo_never]
          refine ⟨att2, ?_⟩
          rw [show ((i + lenL (.vcons v (.vcons v2 vs2)) : Nat) : Int) =
              (((i + 1) + lenL (.vcons v2 vs2) : Nat) : Int) by push_cast [lenL]; omega,
            hloop]
          simp [renderMap, hpar]
    · -- indefinite map step
      intro i len2
      obtain ⟨att1, hobj⟩ := rt_obj v hwv E f hfv (encList vs ++ 255 :: rest) sink
      rw [mapLoop.eq_def]
      simp only []
      rw [if_pos (Or.inl trivial)]
      rw [show encList (.vcons v vs) ++ 255 :: rest =
          encodeVal v ++ (encList vs ++ 255 :: rest) by simp [encList]]
      rw [hhead, List.cons_append, if_pos trivial]
      simp only []
      rw [if_neg (by
        rw [show breakCode = 255 from rfl]
        omega)]
      rw [← List.cons_append, ← hhead, hobj]
      simp only []
      by_cases hpar : i % 2 = 0
      · obtain ⟨att2, hloop⟩ := (rt_list vs hwl E f hfl rest
          ⟨(sink.out ++ renderVal v) ++ [58], att1 ++ [[58]], sink.log⟩).2.2.2 (i + 1) len2
        rw [if_pos hpar, writeTo_never, hloop]
        refine ⟨att2, ?_⟩
        simp [renderMap, hpar]
      · rw [if_neg hpar]
        cases vs with
        | vnil =>
          refine ⟨att1, ?_⟩
          rw [show encList ValList.vnil ++ 255 :: rest = 255 :: rest by simp [encList]]
          simp only []
          rw [if_pos (show (255 : Nat) = breakCode from rfl)]
          simp [renderMap, hpar]
        | vcons v2 vs2 =>
          obtain ⟨bh2, lh2, hhead2, hblt2⟩ := encodeVal_head v2
          obtain ⟨att2, hloop⟩ := (rt_list (.vcons v2 vs2) hwl E f hfl rest
            ⟨(sink.out ++ renderVal v) ++ [44], att1 ++ [[44]], sink.log⟩).2.2.2
              (i + 1) len2
          refine ⟨att2, ?_⟩
          rw [show encList (.vcons v2 vs2) ++ 255 :: rest =
              encodeVal v2 ++ (encList vs2 ++ 255 :: rest) by simp [encList],
            hhead2, List.cons_append]
          simp only []
          rw [if_neg (by
            rw [show breakCode = 255 from rfl]
            omega), writeTo_never]
          rw [← List.cons_append, ← hhead2,
            show encodeVal v2 ++ (encList vs2 ++ 255 :: rest) =
              encList (.vcons v2 vs2) ++ 255 :: rest by simp [encList], hloop]
          simp [renderMap, hpar]

end

/-- Bracket/brace matcher: scans the text keeping a stack of open brackets
and the maximum nesting depth reached; `some d` means every opened bracket
was closed by its partner and the deepest nesting was `d`. -/
def scanBal : List Nat → List Nat → Nat → Option Nat
  | [], stack, maxd => if stack.isEmpty then some maxd else none
  | c :: cs, stack, maxd =>
    if c = 91 ∨ c = 123 then scanBal cs (c :: stack) (max maxd (stack.length + 1))
    else if c = 93 then
      match stack with
      | 91 :: st => scanBal cs st maxd
      | _ => none
    else if c = 125 then
      match stack with
      | 123 :: st => scanBal cs st maxd
      | _ => none
    else scanBal cs stack maxd

theorem scanBal_nil (stack : List Nat) (maxd : Nat) :
    scanBal [] stack maxd = if stack.isEmpty then some maxd else none := by
  rw [scanBal.eq_def]

theorem scanBal_skip (c : Nat) (cs stack : List Nat) (maxd : Nat)
    (h : ¬(c = 91 ∨ c = 93 ∨ c = 123 ∨ c = 125)) :
    scanBal (c :: cs) stack maxd = scanBal cs stack maxd := by
  rw [scanBal.eq_def]
  simp only []
  rw [if_neg (by omega), if_neg (by omega), if_neg (by omega)]

theorem scanBal_skip_all (l cs stack : List Nat) (maxd : Nat)
    (h : ∀ c ∈ l, ¬(c = 91 ∨ c = 93 ∨ c = 123 ∨ c = 125)) :
    scanBal (l ++ cs) stack maxd = scanBal cs stack maxd := by
  induction l with
  | nil => rfl
  | cons c l ih =>
    rw [List.cons_append, scanBal_skip c _ _ _ (h c (by simp)),
      ih (fun x hx => h x (by simp [hx]))]

theorem scanBal_open_arr (cs stack : List Nat) (maxd : Nat) :
    scanBal (91 :: cs) stack maxd =
      scanBal cs (91 :: stack) (max maxd (stack.length + 1)) := by
  rw [scanBal.eq_def]
  simp only []
  rw [if_pos (Or.inl trivial)]

theorem scanBal_open_map (cs stack : List Nat) (maxd : Nat) :
    scanBal (123 :: cs) stack maxd =
      scanBal cs (123 :: stack) (max maxd (stack.length + 1)) := by
  rw [scanBal.eq_def]
  simp only []
  rw [if_pos (Or.inr trivial)]

theorem scanBal_close_arr (cs st : List Nat) (maxd : Nat) :
    scanBal (93 :: cs) (91 :: st) maxd = scanBal cs st maxd := by
  rw [scanBal.eq_def]
  simp only []
  rw [if_pos trivial]
  norm_num

theorem scanBal_close_map (cs st : List Nat) (maxd : Nat) :
    scanBal (125 :: cs) (123 :: st) maxd = scanBal cs st maxd := by
  rw [scanBal.eq_def]
  simp only []
  rw [if_pos trivial]
  norm_num

theorem itoa_no_brackets (n : Int) :
    ∀ d ∈ itoa n, ¬(d = 91 ∨ d = 93 ∨ d = 123 ∨ d = 125) := by
  intro d hd
  rw [itoa] at hd
  split at hd
  · rcases List.mem_cons.mp hd with rfl | hds
    · omega
    · have := natDigits_mem _ d hds
      omega
  · have := natDigits_mem _ d hd
    omega

mutual

/-- Scanning the rendering of one document from any stack position: the
brackets are perfectly matched and the deepest nesting grows by the
document's depth. -/
theorem scan_obj (t : Val) (stack : List Nat) (maxd : Nat) (cs : List Nat)
    (hm : stack.length ≤ maxd) :
    scanBal (renderVal t ++ cs) stack maxd =
      scanBal cs stack (max maxd (stack.length + depthV t)) := by
  cases t with
  | vint n =>
    rw [show renderVal (.vint n) = itoa n from rfl,
      scanBal_skip_all _ _ _ _ (itoa_no_brackets n),
      show max maxd (stack.length + depthV (.vint n)) = maxd by
        simp [depthV]
        omega]
  | varr ind es =>
    rw [show renderVal (.varr ind es) ++ cs = 91 :: (renderArr es ++ (93 :: cs)) by
      simp [renderVal], scanBal_open_arr,
      scan_arr es (91 :: stack) _ _ (by simp), scanBal_close_arr,
      show max (max maxd (stack.length + 1)) ((91 :: stack).length + depthL es) =
        max maxd (stack.length + depthV (.varr ind es)) by
          simp [depthV]
          omega]
  | vmap ind es =>
    rw [show renderVal (.vmap ind es) ++ cs = 123 :: (renderMap 0 es ++ (125 :: cs)) by
      simp [renderVal], scanBal_open_map,
      scan_map es 0 (123 :: stack) _ _ (by simp), scanBal_close_map,
      show max (max maxd (stack.length + 1)) ((123 :: stack).length + depthL es) =
        max maxd (stack.length + depthV (.vmap ind es)) by
          simp [depthV]
          omega]

theorem scan_arr (es : ValList) (stack : List Nat) (maxd : Nat) (cs : List Nat)
    (hm : stack.length ≤ maxd) :
    scanBal (renderArr es ++ cs) stack maxd =
      scanBal cs stack (max maxd (stack.length + depthL es)) := by
  cases es with
  | vnil =>
    rw [show renderArr .vnil = ([] : List Nat) from rfl, List.nil_append,
      show max maxd (stack.length + depthL .vnil) = maxd by
        simp only [depthL]
        omega]
  | vcons v vs =>
    cases vs with
    | vnil =>
      rw [show renderArr (.vcons v .vnil) = renderVal v from rfl,
        scan_obj v stack maxd cs hm,
        show max maxd (stack.length + depthV v) =
          max maxd (stack.length + depthL (.vcons v .vnil)) by
            simp [depthL]]
    | vcons v2 vs2 =>
      rw [show renderArr (.vcons v (.vcons v2 vs2)) ++ cs =
          renderVal v ++ (44 :: (renderArr (.vcons v2 vs2) ++ cs)) by
            simp [renderArr], scan_obj v stack maxd _ hm,
        scanBal_skip 44 _ _ _ (by omega),
        scan_arr (.vcons v2 vs2) stack _ cs (by omega),
        show max (max maxd (stack.length + depthV v))
            (stack.length + depthL (.vcons v2 vs2)) =
          max maxd (stack.length + depthL (.vcons v (.vcons v2 vs2))) by
            simp [depthL]
            omega]

theorem scan_map (es : ValList) (i : Nat) (stack : List Nat) (maxd : Nat)
    (cs : List Nat) (hm : stack.length ≤ maxd) :
    scanBal (renderMap i es ++ cs) stack maxd =
      scanBal cs stack (max maxd (stack.length + depthL es)) := by
  cases es with
  | vnil =>
    rw [show renderMap i .vnil = ([] : List Nat) from rfl, List.nil_append,
      show max maxd (stack.length + depthL .vnil) = maxd by
        simp only [depthL]
        omega]
  | vcons v vs =>
    by_cases hpar : i % 2 = 0
    · rw [show renderMap i (.vcons v vs) ++ cs =
          renderVal v ++ (58 :: (renderMap (i + 1) vs ++ cs)) by
            simp [renderMap, hpar], scan_obj v stack maxd _ hm,
        scanBal_skip 58 _ _ _ (by omega),
        scan_map vs (i + 1) stack _ cs (by omega),
        show max (max maxd (stack.length + depthV v)) (stack.length + depthL vs) =
          max maxd (stack.length + depthL (.vcons v vs)) by
            simp [depthL]
            omega]
    · cases vs with
      | vnil =>
        rw [show renderMap i (.vcons v .vnil) = renderVal v by
            simp [renderMap, hpar],
          scan_obj v stack maxd cs hm,
          show max maxd (stack.length + depthV v) =
            max maxd (stack.length + depthL (.vcons v .vnil)) by
              simp [depthL]]
      | vcons v2 vs2 =>
        rw [show renderMap i (.vcons v (.vcons v2 vs2)) ++ cs =
            renderVal v ++ (44 :: (renderMap (i + 1) (.vcons v2 vs2) ++ cs)) by
              simp [renderMap, hpar], scan_obj v stack maxd _ hm,
          scanBal_skip 44 _ _ _ (by omega),
          scan_map (.vcons v2 vs2) (i + 1) stack _ cs (by omega),
          show max (max maxd (stack.length + depthV v))
              (stack.length + depthL (.vcons v2 vs2)) =
            max maxd (stack.length + depthL (.vcons v (.vcons v2 vs2))) by
              simp [depthL]
              omega]

end

mutual

/-- Bracket counts of a rendering: one `[`/`]` pair per array value and one
`{`/`}` pair per map value. -/
theorem count_obj (t : Val) :
    (renderVal t).count 91 = arrN t ∧ (renderVal t).count 93 = arrN t ∧
    (renderVal t).count 123 = mapN t ∧ (renderVal t).count 125 = mapN t := by
  cases t with
  | vint n =>
    have h : ∀ c, c = 91 ∨ c = 93 ∨ c = 123 ∨ c = 125 → (itoa n).count c = 0 := by
      intro c hc
      rw [List.count_eq_zero]
      intro hmem
      exact itoa_no_brackets n c hmem (by omega)
    exact ⟨h 91 (by omega), h 93 (by omega), h 123 (by omega), h 125 (by omega)⟩
  | varr ind es =>
    obtain ⟨h1, h2, h3, h4⟩ := count_arr es
    refine ⟨?_, ?_, ?_, ?_⟩ <;>
      simp [renderVal, List.count_cons, List.count_append, h1, h2, h3, h4, arrN, mapN] <;>
      omega
  | vmap ind es =>
    obtain ⟨h1, h2, h3, h4⟩ := count_map es 0
    refine ⟨?_, ?_, ?_, ?_⟩ <;>
      simp [renderVal, List.count_cons, List.count_append, h1, h2, h3, h4, arrN, mapN] <;>
      omega

theorem count_arr (es : ValList) :
    (renderArr es).count 91 = arrNL es ∧ (renderArr es).count 93 = arrNL es ∧
    (renderArr es).count 123 = mapNL es ∧ (renderArr es).count 125 = mapNL es := by
  cases es with
  | vnil => simp [renderArr, arrNL, mapNL]
  | vcons v vs =>
    obtain ⟨h1, h2, h3, h4⟩ := count_obj v
    cases vs with
    | vnil =>
      refine ⟨?_, ?_, ?_, ?_⟩ <;>
        simp [renderArr, h1, h2, h3, h4, arrNL, mapNL]
    | vcons v2 vs2 =>
      obtain ⟨g1, g2, g3, g4⟩ := count_arr (.vcons v2 vs2)
      refine ⟨?_, ?_, ?_, ?_⟩ <;>
        simp [show renderArr (.vcons v (.vcons v2 vs2)) =
            renderVal v ++ 44 :: renderArr (.vcons v2 vs2) from rfl,
          List.count_append, List.count_cons, h1, h2, h3, h4, g1, g2, g3, g4,
          arrNL, mapNL]

theorem count_map (es : ValList) (i : Nat) :
    (renderMap i es).count 91 = arrNL es ∧ (renderMap i es).count 93 = arrNL es ∧
    (renderMap i es).count 123 = mapNL es ∧ (renderMap i es).count 125 = mapNL es := by
  cases es with
  | vnil => simp [renderMap, arrNL, mapNL]
  | vcons v vs =>
    obtain ⟨h1, h2, h3, h4⟩ := count_obj v
    by_cases hpar : i % 2 = 0
    · obtain ⟨g1, g2, g3, g4⟩ := count_map vs (i + 1)
      refine ⟨?_, ?_, ?_, ?_⟩ <;>
        simp [show renderMap i (.vcons v vs) = renderVal v ++ 58 :: renderMap (i + 1) vs by
            simp [renderMap, hpar],
          List.count_append, List.count_cons, h1, h2, h3, h4, g1, g2, g3, g4,
          arrNL, mapNL]
    · cases vs with
      | vnil =>
        refine ⟨?_, ?_, ?_, ?_⟩ <;>
          simp [show renderMap i (.vcons v .vnil) = renderVal v by simp [renderMap, hpar],
            h1, h2, h3, h4, arrNL, mapNL]
      | vcons v2 vs2 =>
        obtain ⟨g1, g2, g3, g4⟩ := count_map (.vcons v2 vs2) (i + 1)
        refine ⟨?_, ?_, ?_, ?_⟩ <;>
          simp [show renderMap i (.vcons v (.vcons v2 vs2)) =
              renderVal v ++ 44 :: renderMap (i + 1) (.vcons v2 vs2) by
                simp [renderMap, hpar],
            List.count_append, List.count_cons, h1, h2, h3, h4, g1, g2, g3, g4,
            arrNL, mapNL]

end

/-! ## Claim C6: bracket pairs versus nesting depth -/

/-- C6 — counterexample.  The claim says a nesting of depth `D` decodes to
exactly `D` matched bracket pairs.  The depth-2 document `[[],[]]` (a
definite array holding two empty definite arrays, wire bytes
`0x82 0x80 0x80`) decodes — through the public one-object entry point — to
the seven bytes `[[],[]]`, which contain three `[`/`]` pairs, not two. -/
theorem C6_counterexample :
    depthV (.varr false (.vcons (.varr false .vnil)
      (.vcons (.varr false .vnil) .vnil))) = 2 ∧
    encodeVal (.varr false (.vcons (.varr false .vnil)
      (.vcons (.varr false .vnil) .vnil))) = [0x82, 0x80, 0x80] ∧
    DecodeObjectToStr extStub [0x82, 0x80, 0x80] =
      .ok [91, 91, 93, 44, 91, 93, 93] ∧
    List.count 91 [91, 91, 93, 44, 91, 93, 93] = 3 ∧
    List.count 93 [91, 91, 93, 44, 91, 93, 93] = 3 ∧
    (3 : Nat) ≠ 2 :=
  ⟨by decide, by decide, rfl, by decide, by decide, by decide⟩

/-- C6 — amended.  For every document of arrays, maps and integers with
definite- and indefinite-length encodings mixed arbitrarily, the decoder
emits exactly the rendering `renderVal t` (whose comma placement is: between
adjacent siblings, never before the first or after the last); the emitted
brackets are perfectly matched with maximum nesting depth exactly `depthV t`;
and the number of `[`/`]` (resp. `{`/`}`) pairs equals the number of array
(resp. map) values in the document — not the nesting depth. -/
theorem C6_amended (t : Val) (hwf : wfV t) (E : Ext) (fuel : Nat)
    (hfuel : costV t ≤ fuel) (rest : List Nat) (sink : Sink) :
    (∃ att, cbor2JsonOneObject E neverFails fuel (encodeVal t ++ rest) sink =
      (⟨sink.out ++ renderVal t, att, sink.log⟩, .ok rest)) ∧
    (renderVal t).count 91 = arrN t ∧ (renderVal t).count 93 = arrN t ∧
    (renderVal t).count 123 = mapN t ∧ (renderVal t).count 125 = mapN t ∧
    scanBal (renderVal t) [] 0 = some (depthV t) := by
  obtain ⟨h1, h2, h3, h4⟩ := count_obj t
  refine ⟨rt_obj t hwf E fuel hfuel rest sink, h1, h2, h3, h4, ?_⟩
  have hs := scan_obj t [] 0 [] (by simp)
  rw [List.append_nil] at hs
  rw [hs, scanBal_nil]
  simp

/-- The depth-2 witness document `[[],[]]`. -/
def twoEmpty : Val :=
  .varr false (.vcons (.varr false .vnil) (.vcons (.varr false .vnil) .vnil))

/-- C6 — witness: the amended theorem at the depth-2 document `[[],[]]`. -/
theorem C6_amended_witness :
    (∃ att, cbor2JsonOneObject extStub neverFails 16
        (encodeVal twoEmpty ++ []) Sink.empty =
      (⟨Sink.empty.out ++ renderVal twoEmpty, att, Sink.empty.log⟩, .ok [])) ∧
    (renderVal twoEmpty).count 91 = arrN twoEmpty ∧
    (renderVal twoEmpty).count 93 = arrN twoEmpty ∧
    (renderVal twoEmpty).count 123 = mapN twoEmpty ∧
    (renderVal twoEmpty).count 125 = mapN twoEmpty ∧
    scanBal (renderVal twoEmpty) [] 0 = some (depthV twoEmpty) :=
  C6_amended twoEmpty
    ⟨by decide, ⟨by decide, trivial⟩, ⟨by decide, trivial⟩, trivial⟩
    extStub 16 (by decide) [] Sink.empty

/-! ## Claim C10: odd definite-length maps -/

/-- JSON whitespace bytes. -/
def jsonWsB (c : Nat) : Bool := c = 32 ∨ c = 9 ∨ c = 10 ∨ c = 13

/-- Drop leading JSON whitespace. -/
def skipWs : List Nat → List Nat
  | [] => []
  | c :: cs => if jsonWsB c then skipWs cs else c :: cs

/-- Consume the remainder of a JSON string literal after its opening quote,
returning what follows the closing quote. -/
def jsonStrTail : List Nat → Option (List Nat)
  | [] => none
  | c :: cs =>
    if c = 34 then some cs
    else if c = 92 then
      match cs with
      | [] => none
      | _ :: cs2 => jsonStrTail cs2
    else if c < 32 then none
    else jsonStrTail cs

/-- Bytes that may continue a JSON number token. -/
def jsonNumChar (c : Nat) : Bool :=
  (48 ≤ c ∧ c ≤ 57) ∨ c = 45 ∨ c = 43 ∨ c = 46 ∨ c = 101 ∨ c = 69

/-- Drop a maximal run of number-token bytes. -/
def spanNum : List Nat → List Nat
  | [] => []
  | c :: cs => if jsonNumChar c then spanNum cs else c :: cs

/-- Match a literal byte sequence. -/
def expectL : List Nat → List Nat → Option (List Nat)
  | [], s => some s
  | _ :: _, [] => none
  | p :: ps, c :: cs => if c = p then expectL ps cs else none

mutual

/-- Modelled from the spec: a (lenient) checker for RFC-8259 JSON values,
used only as the reference meaning of "valid JSON".  Consumes one value and
returns the remaining input, or `none` when no value can be parsed. -/
def jsonVal : Nat → List Nat → Option (List Nat)
  | 0, _ => none
  | fuel + 1, s =>
    match skipWs s with
    | [] => none
    | c :: cs =>
      if c = 34 then jsonStrTail cs
      else if c = 123 then jsonObjTail fuel cs true
      else if c = 91 then jsonArrTail fuel cs true
      else if c = 116 then expectL [114, 117, 101] cs
      else if c = 102 then expectL [97, 108, 115, 101] cs
      else if c = 110 then expectL [117, 108, 108] cs
      else if c = 45 ∨ (48 ≤ c ∧ c ≤ 57) then some (spanNum cs)
      else none

/-- After `{`: members are string keys, `:`, values, separated by `,`. -/
def jsonObjTail : Nat → List Nat → Bool → Option (List Nat)
  | 0, _, _ => none
  | fuel + 1, s, fst =>
    match skipWs s with
    | [] => none
    | c :: cs =>
      if c = 125 then if fst then some cs else none
      else if c = 34 then
        match jsonStrTail cs with
        | none => none
        | some s2 =>
          match skipWs s2 with
          | 58 :: s3 =>
            match jsonVal fuel s3 with
            | none => none
            | some s4 =>
              match skipWs s4 with
              | 44 :: s5 =>
                match skipWs s5 with
                | 34 :: s6 => jsonObjTail fuel (34 :: s6) false
                | _ => none
              | 125 :: s5 => some s5
              | _ => none
          | _ => none
      else none

/-- After `[`: values separated by `,`. -/
def jsonArrTail : Nat → List Nat → Bool → Option (List Nat)
  | 0, _, _ => none
  | fuel + 1, s, fst =>
    match skipWs s with
    | [] => none
    | c :: cs =>
      if c = 93 ∧ fst then some cs
      else
        match jsonVal fuel (c :: cs) with
        | none => none
        | some s2 =>
          match skipWs s2 with
          | 44 :: s3 => jsonArrTail fuel s3 false
          | 93 :: s3 => some s3
          | _ => none

end

/-- Modelled from the spec: a byte sequence is valid JSON when it is exactly
one JSON value surrounded by whitespace. -/
def jsonValid (s : List Nat) : Bool :=
  match jsonVal (s.length + 1) s with
  | some rest => (skipWs rest).isEmpty
  | none => false

/-- An odd-total item list renders with a trailing colon: the last item is a
key that never receives a value. -/
theorem renderMap_colon (es : ValList) : ∀ i : Nat, es ≠ .vnil →
    (i + lenL es) % 2 = 1 → ∃ u, renderMap i es = u ++ [58] := by
  cases es with
  | vnil => intro i h _; exact absurd rfl h
  | vcons v vs =>
    intro i _ hodd
    by_cases hpar : i % 2 = 0
    · cases vs with
      | vnil =>
        exact ⟨renderVal v, by simp [renderMap, hpar]⟩
      | vcons v2 vs2 =>
        obtain ⟨u, hu⟩ := renderMap_colon (.vcons v2 vs2) (i + 1)
          (fun h => ValList.noConfusion h)
          (by simp [lenL] at hodd ⊢; omega)
        refine ⟨renderVal v ++ 58 :: u, ?_⟩
        rw [show renderMap i (.vcons v (.vcons v2 vs2)) =
            renderVal v ++ 58 :: renderMap (i + 1) (.vcons v2 vs2) by
              simp [renderMap, hpar], hu]
        simp
    · cases vs with
      | vnil =>
        exfalso
        simp [lenL] at hodd
        omega
      | vcons v2 vs2 =>
        obtain ⟨u, hu⟩ := renderMap_colon (.vcons v2 vs2) (i + 1)
          (fun h => ValList.noConfusion h)
          (by simp [lenL] at hodd ⊢; omega)
        refine ⟨renderVal v ++ 44 :: u, ?_⟩
        rw [show renderMap i (.vcons v (.vcons v2 vs2)) =
            renderVal v ++ 44 :: renderMap (i + 1) (.vcons v2 vs2) by
              simp [renderMap, hpar], hu]
        simp

/-- C10 — confirmed.  Decoding a definite-length map with an odd declared
item count raises no fault: the output is the opening brace, the rendered
items ending in a colon written right after the final item (a key with no
value), and the closing brace — so the text ends in `:}`.  The representative
instance `{1:}` (the one-item map) fails the JSON validity checker, while the
well-formed text `{"a":1}` passes it. -/
theorem C10_odd_map (es : ValList) (hwf : wfL es) (hlen : lenL es < 2 ^ 63)
    (hodd : lenL es % 2 = 1) (E : Ext) (fuel : Nat) (hfuel : 2 + costL es ≤ fuel)
    (rest : List Nat) (sink : Sink) :
    (∃ u att, cbor2JsonOneObject E neverFails fuel
        (encodeVal (.vmap false es) ++ rest) sink =
      (⟨sink.out ++ 123 :: (u ++ [58, 125]), att, sink.log⟩, .ok rest)) ∧
    jsonValid [123, 49, 58, 125] = false ∧
    jsonValid [123, 34, 97, 34, 58, 49, 125] = true := by
  refine ⟨?_, by decide, by decide⟩
  obtain ⟨att, h⟩ := rt_obj (.vmap false es) ⟨hlen, hwf⟩ E fuel (by
    simpa [costV] using hfuel) rest sink
  obtain ⟨u, hu⟩ := renderMap_colon es 0
    (by intro he; rw [he] at hodd; simp [lenL] at hodd)
    (by simpa using hodd)
  refine ⟨u, att, ?_⟩
  rw [show renderVal (.vmap false es) = 123 :: (renderMap 0 es ++ [125]) from rfl,
    hu, List.append_assoc] at h
  exact h

/-- C10 — witness: the one-item map at key `1`, decoding to `{1:}`. -/
theorem C10_odd_map_witness :
    (∃ u att, cbor2JsonOneObject extStub neverFails 8
        (encodeVal (.vmap false (.vcons (.vint 1) .vnil)) ++ []) Sink.empty =
      (⟨Sink.empty.out ++ 123 :: (u ++ [58, 125]), att, Sink.empty.log⟩,
        .ok [])) ∧
    jsonValid [123, 49, 58, 125] = false ∧
    jsonValid [123, 34, 97, 34, 58, 49, 125] = true :=
  C10_odd_map (.vcons (.vint 1) .vnil) ⟨⟨by decide, by decide⟩, trivial⟩
    (by decide) (by decide) extStub 8 (by decide) [] Sink.empty

/-! ## Claims C4 and C9: the stream driver and write-error handling

`frame sink1 sink2 r1 r2` relates two runs of the same decoder code started
from sinks `sink1`/`sink2` (possibly under different write-failure oracles):
both return the same result, both attempt the same sequence of writes, and
the first run only ever appends to its accepted output. -/

def frame {α : Type} (sink1 sink2 : Sink) (r1 r2 : Sink × α) : Prop :=
  r1.2 = r2.2 ∧
  (∃ Δ, r1.1.attempts = sink1.attempts ++ Δ ∧ r2.1.attempts = sink2.attempts ++ Δ) ∧
  (∃ δ, r1.1.out = sink1.out ++ δ)

theorem frame_pure {α : Type} (sink1 sink2 : Sink) (x : α) :
    frame sink1 sink2 (sink1, x) (sink2, x) :=
  ⟨rfl, ⟨[], by simp, by simp⟩, ⟨[], by simp⟩⟩

/-- `utils.HandleErr` on a failed write: the attempt is recorded, the message
logged, the accepted output unchanged. -/
theorem writeTo_attempts (wf : Nat → Bool) (sink : Sink) (bs : List Nat)
    (m : String) : (writeTo wf sink bs m).attempts = sink.attempts ++ [bs] := by
  unfold writeTo
  split_ifs <;> rfl

theorem writeTo_out_ext (wf : Nat → Bool) (sink : Sink) (bs : List Nat)
    (m : String) : ∃ δ, (writeTo wf sink bs m).out = sink.out ++ δ := by
  unfold writeTo
  split_ifs
  · exact ⟨[], by simp⟩
  · exact ⟨bs, rfl⟩

theorem frame_writeTo {α : Type} {w1 w2 : Nat → Bool} {sink1 sink2 : Sink}
    {bs : List Nat} {m : String} {x : α} :
    frame sink1 sink2 (writeTo w1 sink1 bs m, x) (writeTo w2 sink2 bs m, x) :=
  ⟨rfl,
   ⟨[bs], writeTo_attempts w1 sink1 bs m, writeTo_attempts w2 sink2 bs m⟩,
   writeTo_out_ext w1 sink1 bs m⟩

theorem frame_comp {β : Type} {sink1 sink2 a1 a2 : Sink}
    (hA : ∃ Δ, a1.attempts = sink1.attempts ++ Δ ∧ a2.attempts = sink2.attempts ++ Δ)
    (hO : ∃ δ, a1.out = sink1.out ++ δ)
    {r1 r2 : Sink × β} (h2 : frame a1 a2 r1 r2) : frame sink1 sink2 r1 r2 := by
  obtain ⟨Δ1, hA1, hA2⟩ := hA
  obtain ⟨δ1, hO1⟩ := hO
  obtain ⟨he, ⟨Δ2, hB1, hB2⟩, ⟨δ2, hO2⟩⟩ := h2
  exact ⟨he, ⟨Δ1 ++ Δ2, by rw [hB1, hA1, List.append_assoc],
    by rw [hB2, hA2, List.append_assoc]⟩,
    ⟨δ1 ++ δ2, by rw [hO2, hO1, List.append_assoc]⟩⟩

/-- Both runs make the same write, then continue in lock step. -/
theorem frame_comp_writeTo {β : Type} {w1 w2 : Nat → Bool} {sink1 sink2 : Sink}
    (bs : List Nat) (m : String) {r1 r2 : Sink × β}
    (h : frame (writeTo w1 sink1 bs m) (writeTo w2 sink2 bs m) r1 r2) :
    frame sink1 sink2 r1 r2 :=
  frame_comp
    ⟨[bs], writeTo_attempts w1 sink1 bs m, writeTo_attempts w2 sink2 bs m⟩
    (writeTo_out_ext w1 sink1 bs m) h

mutual

/-- Two runs of the dispatcher under different write oracles and sinks stay
in lock step: same result, same write attempts, output only appended. -/
theorem frame_obj (E : Ext) (w1 w2 : Nat → Bool) (fuel : Nat) (s : List Nat)
    (sink1 sink2 : Sink) :
    frame sink1 sink2 (cbor2JsonOneObject E w1 fuel s sink1)
      (cbor2JsonOneObject E w2 fuel s sink2) := by
  cases fuel with
  | zero => exact frame_pure sink1 sink2 _
  | succ fuel =>
    cases s with
    | nil => exact frame_pure sink1 sink2 _
    | cons b t =>
      simp only [cbor2JsonOneObject]
      by_cases h1 : mjOf b = majorTypeUnsignedInt ∨ mjOf b = majorTypeNegativeInt
      · rw [if_pos h1, if_pos h1]
        rcases hd : decodeInteger (b :: t) with f | ⟨n, s'⟩
        · exact frame_pure sink1 sink2 _
        · exact frame_writeTo
      · rw [if_neg h1, if_neg h1]
        by_cases h2 : mjOf b = majorTypeByteString
        · rw [if_pos h2, if_pos h2]
          rcases hd : decodeString false (b :: t) with f | ⟨bs, s'⟩
          · exact frame_pure sink1 sink2 _
          · exact frame_writeTo
        · rw [if_neg h2, if_neg h2]
          by_cases h3 : mjOf b = majorTypeUtf8String
          · rw [if_pos h3, if_pos h3]
            rcases hd : decodeUTF8String (b :: t) with f | ⟨bs, s'⟩
            · exact frame_pure sink1 sink2 _
            · exact frame_writeTo
          · rw [if_neg h3, if_neg h3]
            by_cases h4 : mjOf b = majorTypeArray
            · rw [if_pos h4, if_pos h4]
              exact frame_arr2 E w1 w2 fuel (b :: t) sink1 sink2
            · rw [if_neg h4, if_neg h4]
              by_cases h5 : mjOf b = majorTypeMap
              · rw [if_pos h5, if_pos h5]
                exact frame_map2 E w1 w2 fuel (b :: t) sink1 sink2
              · rw [if_neg h5, if_neg h5]
                by_cases h6 : mjOf b = majorTypeTags
                · rw [if_pos h6, if_pos h6]
                  rcases hd : decodeTagData E (b :: t) with f | ⟨bs, s'⟩
                  · exact frame_pure sink1 sink2 _
                  · exact frame_writeTo
                · rw [if_neg h6, if_neg h6]
                  by_cases h7 : mjOf b = majorTypeSimpleAndFloat
                  · rw [if_pos h7, if_pos h7]
                    rcases hd : decodeSimpleFloat E (b :: t) with f | ⟨bs, s'⟩
                    · exact frame_pure sink1 sink2 _
                    · exact frame_writeTo
                  · rw [if_neg h7, if_neg h7]
                    exact frame_pure sink1 sink2 _

/-- Lock step for `array2Json`. -/
theorem frame_arr2 (E : Ext) (w1 w2 : Nat → Bool) (fuel : Nat) (s : List Nat)
    (sink1 sink2 : Sink) :
    frame sink1 sink2 (array2Json E w1 fuel s sink1)
      (array2Json E w2 fuel s sink2) := by
  cases fuel with
  | zero => exact frame_pure sink1 sink2 _
  | succ fuel =>
    simp only [array2Json, readByte]
    cases s with
    | nil => exact frame_writeTo
    | cons pb t =>
      simp only []
      by_cases hmj : mjOf pb ≠ majorTypeArray
      · rw [if_pos hmj, if_pos hmj]
        exact frame_writeTo
      · rw [if_neg hmj, if_neg hmj]
        by_cases hmn : mnOf pb = additionalTypeInfiniteCount
        · rw [if_pos hmn, if_pos hmn]
          have h := frame_arrLoop E w1 w2 fuel true 0 0 t
            (writeTo w1 sink1 [91] "Failed to write start of array")
            (writeTo w2 sink2 [91] "Failed to write start of array")
          rcases hr1 : arrayLoop E w1 fuel true 0 0 t
            (writeTo w1 sink1 [91] "Failed to write start of array") with ⟨a1, e1⟩
          rcases hr2 : arrayLoop E w2 fuel true 0 0 t
            (writeTo w2 sink2 [91] "Failed to write start of array") with ⟨a2, e2⟩
          rw [hr1, hr2] at h
          have h' := frame_comp_writeTo [91] "Failed to write start of array" h
          obtain ⟨he, hA, hO⟩ := h'
          replace he : e1 = e2 := he
          subst he
          cases e1 with
          | error f => exact ⟨rfl, hA, hO⟩
          | ok s2 =>
            exact frame_comp hA hO frame_writeTo
        · rw [if_neg hmn, if_neg hmn]
          rcases hd : decodeIntAdditionalType (mnOf pb) t with f | ⟨len2, t2⟩
          · exact frame_writeTo
          · simp only []
            have h := frame_arrLoop E w1 w2 fuel false len2 0 t2
              (writeTo w1 sink1 [91] "Failed to write start of array")
              (writeTo w2 sink2 [91] "Failed to write start of array")
            rcases hr1 : arrayLoop E w1 fuel false len2 0 t2
              (writeTo w1 sink1 [91] "Failed to write start of array") with ⟨a1, e1⟩
            rcases hr2 : arrayLoop E w2 fuel false len2 0 t2
              (writeTo w2 sink2 [91] "Failed to write start of array") with ⟨a2, e2⟩
            rw [hr1, hr2] at h
            have h' := frame_comp_writeTo [91] "Failed to write start of array" h
            obtain ⟨he, hA, hO⟩ := h'
            replace he : e1 = e2 := he
            subst he
            cases e1 with
            | error f => exact ⟨rfl, hA, hO⟩
            | ok s2 =>
              exact frame_comp hA hO frame_writeTo

/-- Lock step for the array element loop. -/
theorem frame_arrLoop (E : Ext) (w1 w2 : Nat → Bool) (fuel : Nat) (unspec : Bool)
    (len2 : Int) (i : Nat) (s : List Nat) (sink1 sink2 : Sink) :
    frame sink1 sink2 (arrayLoop E w1 fuel unspec len2 i s sink1)
      (arrayLoop E w2 fuel unspec len2 i s sink2) := by
  cases fuel with
  | zero => exact frame_pure sink1 sink2 _
  | succ fuel =>
    simp only [arrayLoop]
    cases unspec with
    | true =>
      rw [if_pos (Or.inl rfl), if_pos (Or.inl rfl), if_pos rfl, if_pos rfl]
      cases s with
      | nil => exact frame_pure sink1 sink2 _
      | cons b rest =>
        simp only []
        by_cases hb : b = breakCode
        · rw [if_pos hb, if_pos hb]
          exact frame_pure sink1 sink2 _
        · rw [if_neg hb, if_neg hb]
          have h := frame_obj E w1 w2 fuel (b :: rest) sink1 sink2
          rcases hr1 : cbor2JsonOneObject E w1 fuel (b :: rest) sink1 with ⟨a1, e1⟩
          rcases hr2 : cbor2JsonOneObject E w2 fuel (b :: rest) sink2 with ⟨a2, e2⟩
          rw [hr1, hr2] at h
          obtain ⟨he, hA, hO⟩ := h
          replace he : e1 = e2 := he
          subst he
          cases e1 with
          | error f => exact ⟨rfl, hA, hO⟩
          | ok s2 =>
            simp only []
            cases s2 with
            | nil => exact frame_comp hA hO (frame_pure a1 a2 _)
            | cons b2 rest2 =>
              simp only []
              by_cases hb2 : b2 = breakCode
              · rw [if_pos hb2, if_pos hb2]
                exact frame_comp hA hO (frame_pure a1 a2 _)
              · rw [if_neg hb2, if_neg hb2]
                exact frame_comp hA hO (frame_comp_writeTo [44]
                  "Failed to write a comma"
                  (frame_arrLoop E w1 w2 fuel true len2 (i + 1) (b2 :: rest2)
                    (writeTo w1 a1 [44] "Failed to write a comma")
                    (writeTo w2 a2 [44] "Failed to write a comma")))
    | false =>
      by_cases hlt : (i : Int) < len2
      · rw [if_pos (Or.inr hlt), if_pos (Or.inr hlt), if_neg (by simp),
          if_neg (by simp)]
        have h := frame_obj E w1 w2 fuel s sink1 sink2
        rcases hr1 : cbor2JsonOneObject E w1 fuel s sink1 with ⟨a1, e1⟩
        rcases hr2 : cbor2JsonOneObject E w2 fuel s sink2 with ⟨a2, e2⟩
        rw [hr1, hr2] at h
        obtain ⟨he, hA, hO⟩ := h
        replace he : e1 = e2 := he
        subst he
        cases e1 with
        | error f => exact ⟨rfl, hA, hO⟩
        | ok s2 =>
          simp only []
          by_cases hlt2 : (i : Int) + 1 < len2
          · rw [if_pos hlt2, if_pos hlt2]
            exact frame_comp hA hO (frame_comp_writeTo [44]
              "Failed to write a comma"
              (frame_arrLoop E w1 w2 fuel false len2 (i + 1) s2
                (writeTo w1 a1 [44] "Failed to write a comma")
                (writeTo w2 a2 [44] "Failed to write a comma")))
          · rw [if_neg hlt2, if_neg hlt2]
            exact frame_comp hA hO
              (frame_arrLoop E w1 w2 fuel false len2 (i + 1) s2 a1 a2)
      · rw [if_neg (by simp [hlt]), if_neg (by simp [hlt])]
        exact frame_pure sink1 sink2 _

/-- Lock step for `map2Json`. -/
theorem frame_map2 (E : Ext) (w1 w2 : Nat → Bool) (fuel : Nat) (s : List Nat)
    (sink1 sink2 : Sink) :
    frame sink1 sink2 (map2Json E w1 fuel s sink1)
      (map2Json E w2 fuel s sink2) := by
  cases fuel with
  | zero => exact frame_pure sink1 sink2 _
  | succ fuel =>
    simp only [map2Json, readByte]
    cases s with
    | nil => exact frame_pure sink1 sink2 _
    | cons pb t =>
      simp only []
      by_cases hmj : mjOf pb ≠ majorTypeMap
      · rw [if_pos hmj, if_pos hmj]
        exact frame_pure sink1 sink2 _
      · rw [if_neg hmj, if_neg hmj]
        by_cases hmn : mnOf pb = additionalTypeInfiniteCount
        · rw [if_pos hmn, if_pos hmn]
          have h := frame_mapLoop E w1 w2 fuel true 0 0 t
            (writeTo w1 sink1 [123] "Can't write")
            (writeTo w2 sink2 [123] "Can't write")
          rcases hr1 : mapLoop E w1 fuel true 0 0 t
            (writeTo w1 sink1 [123] "Can't write") with ⟨a1, e1⟩
          rcases hr2 : mapLoop E w2 fuel true 0 0 t
            (writeTo w2 sink2 [123] "Can't write") with ⟨a2, e2⟩
          rw [hr1, hr2] at h
          have h' := frame_comp_writeTo [123] "Can't write" h
          obtain ⟨he, hA, hO⟩ := h'
          replace he : e1 = e2 := he
          subst he
          cases e1 with
          | error f => exact ⟨rfl, hA, hO⟩
          | ok s2 => exact frame_comp hA hO frame_writeTo
        · rw [if_neg hmn, if_neg hmn]
          rcases hd : decodeIntAdditionalType (mnOf pb) t with f | ⟨len2, t2⟩
          · exact frame_pure sink1 sink2 _
          · simp only []
            have h := frame_mapLoop E w1 w2 fuel false len2 0 t2
              (writeTo w1 sink1 [123] "Can't write")
              (writeTo w2 sink2 [123] "Can't write")
            rcases hr1 : mapLoop E w1 fuel false len2 0 t2
              (writeTo w1 sink1 [123] "Can't write") with ⟨a1, e1⟩
            rcases hr2 : mapLoop E w2 fuel false len2 0 t2
              (writeTo w2 sink2 [123] "Can't write") with ⟨a2, e2⟩
            rw [hr1, hr2] at h
            have h' := frame_comp_writeTo [123] "Can't write" h
            obtain ⟨he, hA, hO⟩ := h'
            replace he : e1 = e2 := he
            subst he
            cases e1 with
            | error f => exact ⟨rfl, hA, hO⟩
            | ok s2 => exact frame_comp hA hO frame_writeTo

/-- Lock step for the map item loop. -/
theorem frame_mapLoop (E : Ext) (w1 w2 : Nat → Bool) (fuel : Nat) (unspec : Bool)
    (l : Int) (i : Nat) (s : List Nat) (sink1 sink2 : Sink) :
    frame sink1 sink2 (mapLoop E w1 fuel unspec l i s sink1)
      (mapLoop E w2 fuel unspec l i s sink2) := by
  cases fuel with
  | zero => exact frame_pure sink1 sink2 _
  | succ fuel =>
    simp only [mapLoop]
    cases unspec with
    | true =>
      rw [if_pos (Or.inl rfl), if_pos (Or.inl rfl), if_pos rfl, if_pos rfl]
      cases s with
      | nil => exact frame_pure sink1 sink2 _
      | cons b rest =>
        simp only []
        by_cases hb : b = breakCode
        · rw [if_pos hb, if_pos hb]
          exact frame_pure sink1 sink2 _
        · rw [if_neg hb, if_neg hb]
          have h := frame_obj E w1 w2 fuel (b :: rest) sink1 sink2
          rcases hr1 : cbor2JsonOneObject E w1 fuel (b :: rest) sink1 with ⟨a1, e1⟩
          rcases hr2 : cbor2JsonOneObject E w2 fuel (b :: rest) sink2 with ⟨a2, e2⟩
          rw [hr1, hr2] at h
          obtain ⟨he, hA, hO⟩ := h
          replace he : e1 = e2 := he
          subst he
          cases e1 with
          | error f => exact ⟨rfl, hA, hO⟩
          | ok s2 =>
            simp only []
            by_cases hpar : i % 2 = 0
            · rw [if_pos hpar, if_pos hpar]
              exact frame_comp hA hO (frame_comp_writeTo [58] "Can't write"
                (frame_mapLoop E w1 w2 fuel true l (i + 1) s2
                  (writeTo w1 a1 [58] "Can't write")
                  (writeTo w2 a2 [58] "Can't write")))
            · rw [if_neg hpar, if_neg hpar]
              cases s2 with
              | nil => exact frame_comp hA hO (frame_pure a1 a2 _)
              | cons b2 rest2 =>
                simp only []
                by_cases hb2 : b2 = breakCode
                · rw [if_pos hb2, if_pos hb2]
                  exact frame_comp hA hO (frame_pure a1 a2 _)
                · rw [if_neg hb2, if_neg hb2]
                  exact frame_comp hA hO (frame_comp_writeTo [44] "Can't write"
                    (frame_mapLoop E w1 w2 fuel true l (i + 1) (b2 :: rest2)
                      (writeTo w1 a1 [44] "Can't write")
                      (writeTo w2 a2 [44] "Can't write")))
    | false =>
      by_cases hlt : (i : Int) < l
      · rw [if_pos (Or.inr hlt), if_pos (Or.inr hlt), if_neg (by simp),
          if_neg (by simp)]
        have h := frame_obj E w1 w2 fuel s sink1 sink2
        rcases hr1 : cbor2JsonOneObject E w1 fuel s sink1 with ⟨a1, e1⟩
        rcases hr2 : cbor2JsonOneObject E w2 fuel s sink2 with ⟨a2, e2⟩
        rw [hr1, hr2] at h
        obtain ⟨he, hA, hO⟩ := h
        replace he : e1 = e2 := he
        subst he
        cases e1 with
        | error f => exact ⟨rfl, hA, hO⟩
        | ok s2 =>
          simp only []
          by_cases hpar : i % 2 = 0
          · rw [if_pos hpar, if_pos hpar]
            exact frame_comp hA hO (frame_comp_writeTo [58] "Can't write"
              (frame_mapLoop E w1 w2 fuel false l (i + 1) s2
                (writeTo w1 a1 [58] "Can't write")
                (writeTo w2 a2 [58] "Can't write")))
          · rw [if_neg hpar, if_neg hpar]
            by_cases hlt2 : (i : Int) + 1 < l
            · rw [if_pos hlt2, if_pos hlt2]
              exact frame_comp hA hO (frame_comp_writeTo [44] "Can't write"
                (frame_mapLoop E w1 w2 fuel false l (i + 1) s2
                  (writeTo w1 a1 [44] "Can't write")
                  (writeTo w2 a2 [44] "Can't write")))
            · rw [if_neg hlt2, if_neg hlt2]
              exact frame_comp hA hO
                (frame_mapLoop E w1 w2 fuel false l (i + 1) s2 a1 a2)
      · rw [if_neg (by simp [hlt]), if_neg (by simp [hlt])]
        exact frame_pure sink1 sink2 _

end

/-- Lock step for the stream-driver loop. -/
theorem frame_many (E : Ext) (w1 w2 : Nat → Bool) (fuel : Nat) (s : List Nat)
    (sink1 sink2 : Sink) :
    frame sink1 sink2 (manyLoop E w1 fuel s sink1) (manyLoop E w2 fuel s sink2) := by
  induction fuel generalizing s sink1 sink2 with
  | zero =>
    rw [manyLoop, manyLoop]
    by_cases hm : moreBytesToRead s = true
    · rw [if_pos hm, if_pos hm]
      exact frame_pure sink1 sink2 _
    · rw [if_neg hm, if_neg hm]
      exact frame_pure sink1 sink2 _
  | succ fuel ih =>
    rw [manyLoop, manyLoop]
    by_cases hm : moreBytesToRead s = true
    · rw [if_pos hm, if_pos hm]
      have h := frame_obj E w1 w2 fuel s sink1 sink2
      rcases hr1 : cbor2JsonOneObject E w1 fuel s sink1 with ⟨a1, e1⟩
      rcases hr2 : cbor2JsonOneObject E w2 fuel s sink2 with ⟨a2, e2⟩
      rw [hr1, hr2] at h
      obtain ⟨he, hA, hO⟩ := h
      replace he : e1 = e2 := he
      subst he
      cases e1 with
      | error f =>
        simp only []
        by_cases hf : f.isMalformed = true
        · rw [if_pos hf, if_pos hf]
          exact ⟨rfl, hA, hO⟩
        · rw [if_neg hf, if_neg hf]
          exact ⟨rfl, hA, hO⟩
      | ok s2 =>
        exact frame_comp hA hO (frame_comp_writeTo [10] "Can't write"
          (ih s2 (writeTo w1 a1 [10] "Can't write")
            (writeTo w2 a2 [10] "Can't write")))
    · rw [if_neg hm, if_neg hm]
      exact frame_pure sink1 sink2 _

/-- C4 — confirmed.  The stream driver decodes one object at a time, writing
a newline after each, and stops cleanly (no error) when input is exhausted;
a malformed-input fault from the decoder is caught and returned as the single
error of the whole call, with the sink keeping everything written before the
fault (the sink state at the fault extends the starting output); a
runtime-error fault is not converted and propagates out of the call. -/
theorem C4_stream_driver (E : Ext) (wf : Nat → Bool) :
    (∀ fuel sink, manyLoop E wf fuel [] sink = (sink, .ok none)) ∧
    (∀ fuel s sink sink2 s2, s ≠ [] →
      cbor2JsonOneObject E wf fuel s sink = (sink2, .ok s2) →
      manyLoop E wf (fuel + 1) s sink =
        manyLoop E wf fuel s2 (writeTo wf sink2 [10] "Can't write")) ∧
    (∀ fuel s sink sink2 m, s ≠ [] →
      cbor2JsonOneObject E wf fuel s sink = (sink2, .error (.malformed m)) →
      manyLoop E wf (fuel + 1) s sink = (sink2, .ok (some (.malformed m))) ∧
      ∃ δ, sink2.out = sink.out ++ δ) ∧
    (∀ fuel s sink sink2 m, s ≠ [] →
      cbor2JsonOneObject E wf fuel s sink = (sink2, .error (.runtimeErr m)) →
      manyLoop E wf (fuel + 1) s sink = (sink2, .error (.runtimeErr m))) := by
  refine ⟨?_, ?_, ?_, ?_⟩
  · intro fuel sink
    rw [manyLoop.eq_def]
    simp [moreBytesToRead]
  · intro fuel s sink sink2 s2 hs hdec
    rw [manyLoop, if_pos (show moreBytesToRead s = true by
      simp [moreBytesToRead, hs])]
    simp [hdec]
  · intro fuel s sink sink2 m hs hdec
    refine ⟨?_, ?_⟩
    · rw [manyLoop, if_pos (show moreBytesToRead s = true by
        simp [moreBytesToRead, hs])]
      simp [hdec, Fault.isMalformed]
    · have h := frame_obj E wf wf fuel s sink sink
      rw [hdec] at h
      obtain ⟨-, -, δ, hO⟩ := h
      exact ⟨δ, hO⟩
  · intro fuel s sink sink2 m hs hdec
    rw [manyLoop, if_pos (show moreBytesToRead s = true by
      simp [moreBytesToRead, hs])]
    simp [hdec, Fault.isMalformed]

set_option maxRecDepth 8192 in
/-- C4 — witness: exhausted input stops cleanly; the truncated array `[0x98]`
is caught as a malformed-input error with the partial output (`[`) kept; the
byte string `0x5b` with length `-1` raises a runtime error that propagates. -/
theorem C4_stream_driver_witness :
    manyLoop extStub neverFails 5 [] Sink.empty = (Sink.empty, .ok none) ∧
    (manyLoop extStub neverFails 9 [0x98] Sink.empty =
      (⟨[91], [[91]], []⟩, .ok (some (.malformed
        "tried to Read N Bytes.. But hit end of file"))) ∧
      ∃ δ, (⟨[91], [[91]], []⟩ : Sink).out = Sink.empty.out ++ δ) ∧
    manyLoop extStub neverFails 9
        [0x5b, 255, 255, 255, 255, 255, 255, 255, 255] Sink.empty =
      (Sink.empty, .error (.runtimeErr "makeslice: len out of range")) :=
  ⟨(C4_stream_driver extStub neverFails).1 5 Sink.empty,
   (C4_stream_driver extStub neverFails).2.2.1 8 [0x98] Sink.empty
     ⟨[91], [[91]], []⟩ "tried to Read N Bytes.. But hit end of file"
     (by simp) rfl,
   (C4_stream_driver extStub neverFails).2.2.2 8
     [0x5b, 255, 255, 255, 255, 255, 255, 255, 255] Sink.empty Sink.empty
     "makeslice: len out of range" (by simp) rfl⟩

/-- C9 — confirmed.  A failed write to the output sink is only logged by
`utils.HandleErr`: the message is appended to the log, the accepted output is
unchanged, and the attempt is still recorded; a successful write appends its
bytes.  Decoding continues as if the write had succeeded: the result of the
whole stream conversion and the entire sequence of subsequent write attempts
are identical to a run whose writes never fail, so no write error is ever
raised as a fault or returned to the caller. -/
theorem C9_write_errors (E : Ext) (wf : Nat → Bool) (input bs : List Nat)
    (m : String) (sink : Sink) :
    (wf sink.attempts.length = true →
      writeTo wf sink bs m = ⟨sink.out, sink.attempts ++ [bs], sink.log ++ [m]⟩) ∧
    (wf sink.attempts.length = false →
      writeTo wf sink bs m = ⟨sink.out ++ bs, sink.attempts ++ [bs], sink.log⟩) ∧
    (ManyObjCBOR2JSON E wf input).2 = (ManyObjCBOR2JSON E neverFails input).2 ∧
    (ManyObjCBOR2JSON E wf input).1.attempts =
      (ManyObjCBOR2JSON E neverFails input).1.attempts := by
  obtain ⟨he, ⟨Δ, hA1, hA2⟩, -⟩ :=
    frame_many E wf neverFails (seedFuel input) input Sink.empty Sink.empty
  refine ⟨?_, ?_, he, ?_⟩
  · intro hw
    rw [writeTo, if_pos hw]
  · intro hw
    rw [writeTo, if_neg (by rw [hw]; exact Bool.false_ne_true)]
  · rw [ManyObjCBOR2JSON, ManyObjCBOR2JSON, hA1, hA2]

/-- C9 — witness: an oracle failing exactly the first write, on the document
`[[],[]]` — the failed write is logged and ignored, and result and attempts
match the never-failing run. -/
theorem C9_write_errors_witness :
    writeTo (fun n => decide (n = 0)) Sink.empty [91] "w" =
      ⟨[], [[91]], ["w"]⟩ ∧
    (ManyObjCBOR2JSON extStub (fun n => decide (n = 0)) [0x82, 0x80, 0x80]).2 =
      (ManyObjCBOR2JSON extStub neverFails [0x82, 0x80, 0x80]).2 ∧
    (ManyObjCBOR2JSON extStub (fun n => decide (n = 0)) [0x82, 0x80, 0x80]).1.attempts =
      (ManyObjCBOR2JSON extStub neverFails [0x82, 0x80, 0x80]).1.attempts :=
  ⟨(C9_write_errors extStub (fun n => decide (n = 0)) [0x82, 0x80, 0x80] [91]
      "w" Sink.empty).1 (by decide),
   (C9_write_errors extStub (fun n => decide (n = 0)) [0x82, 0x80, 0x80] [91]
      "w" Sink.empty).2.2.1,
   (C9_write_errors extStub (fun n => decide (n = 0)) [0x82, 0x80, 0x80] [91]
      "w" Sink.empty).2.2.2⟩

end ZerologCbor
